import Mathlib

set_option linter.unusedVariables false
set_option maxHeartbeats 2000000

/-!
A verification development for the zvariant binary value-encoding engine and
its error taxonomy, together with the platform-selected machine-id retrieval
of the zbus fdo peer interface.

The error taxonomy (`Error`, `MaxDepthExceeded`, its `PartialEq`, `Clone`,
`Display` sources) is embedded from `zvariant/src/error.rs`.  The signature
type tree, the wire formats and the encoder/decoder are modelled from the
specification, since only their error surface is part of the sampled source.
-/

namespace ZV

/-- Modelled from the spec: the two wire encodings ("bus" marshaling and the
variant-length "compact" framing format), `crate::serialized::Format` in the
source.  Governs alignment rules, length-vs-offset strategy and whether
`maybe` is legal. -/
inductive Format where
  | bus
  | compact
deriving DecidableEq

/-- Modelled from the spec: the signature / type tree (`crate::Signature` in
the source).  Variants: basic (byte, boolean, 16/32/64-bit signed/unsigned
integer, double, string, object-path, signature-itself, unix-fd-index),
variant, array, struct, dictionary-entry and, for the compact format only,
maybe. -/
inductive Signature where
  | byte
  | boolean
  | int16
  | uint16
  | int32
  | uint32
  | int64
  | uint64
  | double
  | string
  | objectPath
  | signature
  | unixFd
  | variant
  | array (elem : Signature)
  | struct (fields : List Signature)
  | dictEntry (key val : Signature)
  | maybe (elem : Signature)

mutual

/-- Structural equality on signatures (`PartialEq for Signature`). -/
def sigBeq : Signature → Signature → Bool
  | .byte, .byte => true
  | .boolean, .boolean => true
  | .int16, .int16 => true
  | .uint16, .uint16 => true
  | .int32, .int32 => true
  | .uint32, .uint32 => true
  | .int64, .int64 => true
  | .uint64, .uint64 => true
  | .double, .double => true
  | .string, .string => true
  | .objectPath, .objectPath => true
  | .signature, .signature => true
  | .unixFd, .unixFd => true
  | .variant, .variant => true
  | .array e1, .array e2 => sigBeq e1 e2
  | .struct fs1, .struct fs2 => sigBeqList fs1 fs2
  | .dictEntry k1 v1, .dictEntry k2 v2 => sigBeq k1 k2 && sigBeq v1 v2
  | .maybe e1, .maybe e2 => sigBeq e1 e2
  | _, _ => false

/-- Pointwise equality of signature lists. -/
def sigBeqList : List Signature → List Signature → Bool
  | [], [] => true
  | a :: as, b :: bs => sigBeq a b && sigBeqList as bs
  | _, _ => false

end

instance : BEq Signature := ⟨sigBeq⟩

/-- Modelled from the spec: the error produced when parsing a signature
(`crate::signature::Error` in the source, a `Copy` enum).  Parsing fails on
an unknown type code, unbalanced brackets, a dictionary key that is not
basic, or a signature exceeding the maximum nesting depth. -/
inductive SigError where
  | invalidChar (c : Nat)
  | unexpectedEnd
  | keyMustBeBasic
  | depthExceeded
deriving DecidableEq

/-- Embedding of `std::str::Utf8Error` (an equality-comparable value carrying
the valid prefix length and the length of the offending sequence). -/
structure Utf8Error where
  validUpTo : Nat
  errorLen : Option Nat
deriving DecidableEq

/-- Embedding of `std::io::Error` as an opaque payload: a platform error has
an OS code and a message; the library never compares two of them. -/
structure IoError where
  code : Nat
  msg : String
deriving DecidableEq

/-- Enum representing the max depth exceeded error
(`zvariant/src/error.rs`, `MaxDepthExceeded`). -/
inductive MaxDepthExceeded where
  | Structure
  | Array
  | Container
deriving DecidableEq

/-- Error type used by the zvariant API (`zvariant/src/error.rs`, `Error`).
`InputOutput` wraps `Arc<io::Error>`; the `Arc` adds nothing to a value
model, so the payload is the `IoError` itself. -/
inductive Error where
  | Message (s : String)
  | InputOutput (e : IoError)
  | IncorrectType
  | Utf8 (e : Utf8Error)
  | PaddingNot0 (b : Nat)
  | UnknownFd
  | MissingFramingOffset
  | IncompatibleFormat (sig : Signature) (fmt : Format)
  | SignatureMismatch (provided : Signature) (expected : String)
  | OutOfBounds
  | MaxDepthExceeded (m : MaxDepthExceeded)
  | SignatureParse (e : SigError)
  | EmptyStructure
  | InvalidObjectPath

/-- Embedding of `impl PartialEq for Error` (`zvariant/src/error.rs:72-98`):
the source match, arm by arm; the comment there says "Io is false", and
indeed no arm matches a pair of `InputOutput` values, so the wildcard arm
returns `false` for them. -/
def beqError : Error → Error → Bool
  | .Message msg, .Message other => msg == other
  | .IncorrectType, .IncorrectType => true
  | .Utf8 msg, .Utf8 other => msg == other
  | .PaddingNot0 p, .PaddingNot0 other => p == other
  | .UnknownFd, .UnknownFd => true
  | .MaxDepthExceeded max1, .MaxDepthExceeded max2 => max1 == max2
  | .MissingFramingOffset, .MissingFramingOffset => true
  | .IncompatibleFormat sig1 format1, .IncompatibleFormat sig2 format2 =>
      sig1 == sig2 && format1 == format2
  | .SignatureMismatch provided1 expected1, .SignatureMismatch provided2 expected2 =>
      provided1 == provided2 && expected1 == expected2
  | .OutOfBounds, .OutOfBounds => true
  | .SignatureParse e1, .SignatureParse e2 => e1 == e2
  | .EmptyStructure, .EmptyStructure => true
  | .InvalidObjectPath, .InvalidObjectPath => true
  | _, _ => false

/-- Embedding of `impl Clone for Error` (`zvariant/src/error.rs:143-166`):
every arm rebuilds the same variant from cloned (value-identical) payloads;
`InputOutput` clones the `Arc`, i.e. keeps the same underlying error. -/
def cloneError : Error → Error
  | .Message s => .Message s
  | .InputOutput e => .InputOutput e
  | .IncorrectType => .IncorrectType
  | .Utf8 e => .Utf8 e
  | .PaddingNot0 b => .PaddingNot0 b
  | .UnknownFd => .UnknownFd
  | .MissingFramingOffset => .MissingFramingOffset
  | .IncompatibleFormat sig format => .IncompatibleFormat sig format
  | .SignatureMismatch provided expected => .SignatureMismatch provided expected
  | .OutOfBounds => .OutOfBounds
  | .MaxDepthExceeded max => .MaxDepthExceeded max
  | .SignatureParse e => .SignatureParse e
  | .EmptyStructure => .EmptyStructure
  | .InvalidObjectPath => .InvalidObjectPath

/-- The fourteen kinds of the error taxonomy, named after the spec's list in
section 7. -/
inductive ErrorKind where
  | messageWrapping
  | ioFailure
  | typeMismatch
  | utf8Failure
  | nonZeroPadding
  | unknownFdIndex
  | missingFramingOffset
  | incompatibleFormat
  | signatureMismatch
  | outOfBounds
  | depthExceeded
  | signatureParseFailure
  | emptyStructure
  | invalidObjectPath
deriving DecidableEq, Fintype

/-- The kind an error value belongs to: one kind per `Error` constructor. -/
def kindOf : Error → ErrorKind
  | .Message _ => .messageWrapping
  | .InputOutput _ => .ioFailure
  | .IncorrectType => .typeMismatch
  | .Utf8 _ => .utf8Failure
  | .PaddingNot0 _ => .nonZeroPadding
  | .UnknownFd => .unknownFdIndex
  | .MissingFramingOffset => .missingFramingOffset
  | .IncompatibleFormat _ _ => .incompatibleFormat
  | .SignatureMismatch _ _ => .signatureMismatch
  | .OutOfBounds => .outOfBounds
  | .MaxDepthExceeded _ => .depthExceeded
  | .SignatureParse _ => .signatureParseFailure
  | .EmptyStructure => .emptyStructure
  | .InvalidObjectPath => .invalidObjectPath

/-- Whether an error is of the `InputOutput` variant. -/
def isInputOutput : Error → Bool
  | .InputOutput _ => true
  | _ => false

/-- What `Error::source` can yield: the wrapped io error or the wrapped
UTF-8 error. -/
inductive ErrSource where
  | io (e : IoError)
  | utf8 (e : Utf8Error)
deriving DecidableEq

/-- Embedding of `impl error::Error for Error`, method `source`
(`zvariant/src/error.rs:100-108`): `InputOutput` and `Utf8` expose their
payload as the source; every other variant has none. -/
def sourceOf : Error → Option ErrSource
  | .InputOutput e => some (.io e)
  | .Utf8 e => some (.utf8 e)
  | _ => none

/-- Embedding of `impl From<io::Error> for Error`
(`zvariant/src/error.rs:194-198`): wrap the platform error, unchanged, in
the `InputOutput` variant. -/
def fromIoError (val : IoError) : Error :=
  .InputOutput val

/-- The provided signature carried by a `SignatureMismatch` error. -/
def mismatchProvided : Error → Option Signature
  | .SignatureMismatch provided _ => some provided
  | _ => none

/-- The expected-shape description carried by a `SignatureMismatch` error. -/
def mismatchExpected : Error → Option String
  | .SignatureMismatch _ expected => some expected
  | _ => none

/-! ### The value model

Modelled from the spec: an owned, recursive tagged union mirroring the
signature tree.  Integer payloads are byte-exact: unsigned integers and the
raw bit pattern of a double are `Nat`s below the type's range, signed
integers are `Int`s; strings and object paths carry their UTF-8 bytes. -/

/-- Modelled from the spec: the value tree. -/
inductive Value where
  | byte (n : Nat)
  | boolean (b : Bool)
  | int16 (i : Int)
  | uint16 (n : Nat)
  | int32 (i : Int)
  | uint32 (n : Nat)
  | int64 (i : Int)
  | uint64 (n : Nat)
  | double (bits : Nat)
  | string (s : List Nat)
  | objectPath (s : List Nat)
  | signature (ts : List Signature)
  | unixFd (fd : Nat)
  | variant (t : Signature) (v : Value)
  | array (items : List Value)
  | struct (fields : List Value)
  | dictEntry (key val : Value)
  | maybe (item : Option Value)

/-! ### Shared primitives: alignment, little-endian words, padding -/

/-- Whether a signature is a basic (non-container) type. -/
def isBasic : Signature → Bool
  | .byte | .boolean | .int16 | .uint16 | .int32 | .uint32 | .int64 | .uint64
  | .double | .string | .objectPath | .signature | .unixFd => true
  | _ => false

mutual

/-- Modelled from the spec's data-model invariants: a signature that the
library can represent at all — a structure signature is never empty, and a
dictionary key is a basic type.  The signature parser enforces exactly
these conditions, so only valid signatures may be embedded in variants and
signature values. -/
def validSig : Signature → Bool
  | .array e => validSig e
  | .struct fs => !fs.isEmpty && validSigList fs
  | .dictEntry k v => isBasic k && (validSig k && validSig v)
  | .maybe e => validSig e
  | _ => true

/-- `validSig` over a field list. -/
def validSigList : List Signature → Bool
  | [] => true
  | t :: ts => validSig t && validSigList ts

end

mutual

/-- Whether a signature contains a `maybe` anywhere (the compact-only
type, unsupported by the bus format). -/
def containsMaybe : Signature → Bool
  | .maybe _ => true
  | .array e => containsMaybe e
  | .struct fs => containsMaybeList fs
  | .dictEntry k v => containsMaybe k || containsMaybe v
  | _ => false

/-- `containsMaybe` over a field list. -/
def containsMaybeList : List Signature → Bool
  | [] => false
  | t :: ts => containsMaybe t || containsMaybeList ts

end

/-- Modelled from the spec: the required byte alignment of a type in a
format (1/2/4/8).  Structures and dictionary entries are always 8-byte
aligned; in the compact format arrays and maybes align as their element and
strings drop their length prefix, hence align to 1. -/
def alignOf (f : Format) : Signature → Nat
  | .byte => 1
  | .boolean => match f with | .bus => 4 | .compact => 1
  | .int16 | .uint16 => 2
  | .int32 | .uint32 | .unixFd => 4
  | .int64 | .uint64 | .double => 8
  | .string | .objectPath => match f with | .bus => 4 | .compact => 1
  | .signature => 1
  | .variant => match f with | .bus => 1 | .compact => 8
  | .array e => match f with | .bus => 4 | .compact => alignOf f e
  | .struct _ => 8
  | .dictEntry _ _ => 8
  | .maybe e => match f with | .bus => 1 | .compact => alignOf f e

/-- Number of zero bytes needed to advance `pos` to a multiple of `a`. -/
def padLen (pos a : Nat) : Nat :=
  (a - pos % a) % a

/-- `pos` advanced to the next multiple of `a`. -/
def alignUp (pos a : Nat) : Nat :=
  pos + padLen pos a

/-- A `Nat` as `w` little-endian bytes (truncating to `2 ^ (8 * w)`). -/
def natLE : Nat → Nat → List Nat
  | 0, _ => []
  | w + 1, n => n % 256 :: natLE w (n / 256)

/-- Little-endian bytes back to a `Nat` (each byte taken mod 256). -/
def lesToNat : List Nat → Nat
  | [] => 0
  | b :: bs => b % 256 + 256 * lesToNat bs

/-- Two's-complement bit pattern of a signed integer in `w` bits. -/
def toTwos (w : Nat) (i : Int) : Nat :=
  (i % 2 ^ w).toNat

/-- Signed integer of a two's-complement bit pattern in `w` bits. -/
def fromTwos (w : Nat) (n : Nat) : Int :=
  if n < 2 ^ (w - 1) then (n : Int) else (n : Int) - 2 ^ w

/-- The sub-list `[pos, pos + n)` of a byte list. -/
def readSlice (bytes : List Nat) (pos n : Nat) : List Nat :=
  (bytes.drop pos).take n

/-- Read one byte, `OutOfBounds` past the end of the buffer. -/
def readByteAt (bytes : List Nat) (pos : Nat) : Except Error Nat :=
  match bytes[pos]? with
  | some b => .ok b
  | none => .error .OutOfBounds

/-- Read a `w`-byte little-endian word. -/
def readWord (bytes : List Nat) (pos w : Nat) : Except Error Nat :=
  if pos + w ≤ bytes.length then .ok (lesToNat (readSlice bytes pos w))
  else .error .OutOfBounds

/-- Check that the `n` bytes from `pos` are zero padding: a missing byte is
`OutOfBounds`, a non-zero byte `b` is `PaddingNot0 b`. -/
def checkZeros (bytes : List Nat) (pos : Nat) : Nat → Except Error Unit
  | 0 => .ok ()
  | n + 1 => do
    let b ← readByteAt bytes pos
    if b = 0 then checkZeros bytes (pos + 1) n
    else .error (.PaddingNot0 b)

/-- The absolute positions `[pos, pos + n)`. -/
def padPositions (pos n : Nat) : List Nat :=
  (List.range n).map (pos + ·)

/-! ### Depth counters -/

/-- Modelled from the spec: the caller-configured maxima of the three
independent depth counters. -/
structure Limits where
  structures : Nat
  arrays : Nat
  containers : Nat

/-- Modelled from the spec: the three independent depth counters (structure
depth, array depth, total container depth), transient per call. -/
structure Depths where
  structures : Nat
  arrays : Nat
  containers : Nat

/-- All three counters at zero, the state of a fresh top-level call. -/
def Depths.zero : Depths := ⟨0, 0, 0⟩

/-- Entering a structure or dictionary entry: structure and container
counters increment. -/
def enterStructD (d : Depths) : Depths :=
  { d with structures := d.structures + 1, containers := d.containers + 1 }

/-- Entering an array: array and container counters increment. -/
def enterArrayD (d : Depths) : Depths :=
  { d with arrays := d.arrays + 1, containers := d.containers + 1 }

/-- Entering a variant or maybe: only the container counter increments. -/
def enterContainerD (d : Depths) : Depths :=
  { d with containers := d.containers + 1 }

/-- Abort with `MaxDepthExceeded` when a counter passed its maximum. -/
def checkDepth (lim : Limits) (d : Depths) : Except Error Unit :=
  if lim.structures < d.structures then .error (.MaxDepthExceeded .Structure)
  else if lim.arrays < d.arrays then .error (.MaxDepthExceeded .Array)
  else if lim.containers < d.containers then .error (.MaxDepthExceeded .Container)
  else .ok ()

/-! ### UTF-8 and object-path validation -/

/-- Whether `b` is a UTF-8 continuation byte. -/
def isCont (b : Nat) : Bool :=
  128 ≤ b && b ≤ 191

/-- UTF-8 validation in the style of `str::from_utf8`: `none` when the
bytes are valid, otherwise the error carrying the length of the valid
prefix and, for an invalid (rather than truncated) sequence, the length of
the offending prefix.  `pos` is the number of bytes already validated. -/
def utf8Err (pos : Nat) : List Nat → Option Utf8Error
  | [] => none
  | b :: rest =>
    if b < 128 then utf8Err (pos + 1) rest
    else if 194 ≤ b && b ≤ 223 then
      match rest with
      | [] => some ⟨pos, none⟩
      | c :: r =>
        if isCont c then utf8Err (pos + 2) r else some ⟨pos, some 1⟩
    else if b = 224 then
      match rest with
      | [] => some ⟨pos, none⟩
      | c :: r =>
        if 160 ≤ c && c ≤ 191 then
          match r with
          | [] => some ⟨pos, none⟩
          | c2 :: r2 => if isCont c2 then utf8Err (pos + 3) r2 else some ⟨pos, some 2⟩
        else some ⟨pos, some 1⟩
    else if 225 ≤ b && b ≤ 236 then
      match rest with
      | [] => some ⟨pos, none⟩
      | c :: r =>
        if isCont c then
          match r with
          | [] => some ⟨pos, none⟩
          | c2 :: r2 => if isCont c2 then utf8Err (pos + 3) r2 else some ⟨pos, some 2⟩
        else some ⟨pos, some 1⟩
    else if b = 237 then
      match rest with
      | [] => some ⟨pos, none⟩
      | c :: r =>
        if 128 ≤ c && c ≤ 159 then
          match r with
          | [] => some ⟨pos, none⟩
          | c2 :: r2 => if isCont c2 then utf8Err (pos + 3) r2 else some ⟨pos, some 2⟩
        else some ⟨pos, some 1⟩
    else if 238 ≤ b && b ≤ 239 then
      match rest with
      | [] => some ⟨pos, none⟩
      | c :: r =>
        if isCont c then
          match r with
          | [] => some ⟨pos, none⟩
          | c2 :: r2 => if isCont c2 then utf8Err (pos + 3) r2 else some ⟨pos, some 2⟩
        else some ⟨pos, some 1⟩
    else if b = 240 then
      match rest with
      | [] => some ⟨pos, none⟩
      | c :: r =>
        if 144 ≤ c && c ≤ 191 then
          match r with
          | [] => some ⟨pos, none⟩
          | c2 :: r2 =>
            if isCont c2 then
              match r2 with
              | [] => some ⟨pos, none⟩
              | c3 :: r3 => if isCont c3 then utf8Err (pos + 4) r3 else some ⟨pos, some 3⟩
            else some ⟨pos, some 2⟩
        else some ⟨pos, some 1⟩
    else if 241 ≤ b && b ≤ 243 then
      match rest with
      | [] => some ⟨pos, none⟩
      | c :: r =>
        if isCont c then
          match r with
          | [] => some ⟨pos, none⟩
          | c2 :: r2 =>
            if isCont c2 then
              match r2 with
              | [] => some ⟨pos, none⟩
              | c3 :: r3 => if isCont c3 then utf8Err (pos + 4) r3 else some ⟨pos, some 3⟩
            else some ⟨pos, some 2⟩
        else some ⟨pos, some 1⟩
    else if b = 244 then
      match rest with
      | [] => some ⟨pos, none⟩
      | c :: r =>
        if 128 ≤ c && c ≤ 143 then
          match r with
          | [] => some ⟨pos, none⟩
          | c2 :: r2 =>
            if isCont c2 then
              match r2 with
              | [] => some ⟨pos, none⟩
              | c3 :: r3 => if isCont c3 then utf8Err (pos + 4) r3 else some ⟨pos, some 3⟩
            else some ⟨pos, some 2⟩
        else some ⟨pos, some 1⟩
    else some ⟨pos, some 1⟩

/-- Whether `c` is an allowed object-path segment character: ASCII
alphanumeric or underscore. -/
def pathCharOk (c : Nat) : Bool :=
  (48 ≤ c && c ≤ 57) || (65 ≤ c && c ≤ 90) || (97 ≤ c && c ≤ 122) || c == 95

mutual

/-- An object-path segment: at least one allowed character, then `segRest`. -/
def segOk : List Nat → Bool
  | [] => false
  | c :: r => pathCharOk c && segRest r

/-- The rest of a segment: allowed characters, possibly a `/` starting the
next (non-empty) segment, or the end of the path. -/
def segRest : List Nat → Bool
  | [] => true
  | 47 :: r => segOk r
  | c :: r => pathCharOk c && segRest r

end

/-- Modelled from the spec: the object-path grammar.  A path is absolute,
each segment is non-empty and made of ASCII alphanumerics and underscore,
and there is no trailing slash except for the root path `/` itself. -/
def validObjectPath : List Nat → Bool
  | [47] => true
  | 47 :: r => segOk r
  | _ => false

/-- All entries are byte-valued. -/
def bytesOk (s : List Nat) : Bool :=
  s.all (· < 256)

/-! ### Signature text: printer and parser -/

mutual

/-- The signature text (ASCII codes) of a type tree: the compact textual
grammar of reserved type codes. -/
def sigText : Signature → List Nat
  | .byte => [121]
  | .boolean => [98]
  | .int16 => [110]
  | .uint16 => [113]
  | .int32 => [105]
  | .uint32 => [117]
  | .int64 => [120]
  | .uint64 => [116]
  | .double => [100]
  | .string => [115]
  | .objectPath => [111]
  | .signature => [103]
  | .unixFd => [104]
  | .variant => [118]
  | .array e => 97 :: sigText e
  | .struct fs => 40 :: (sigTextList fs ++ [41])
  | .dictEntry k v => 123 :: (sigText k ++ (sigText v ++ [125]))
  | .maybe e => 109 :: sigText e

/-- Concatenated signature text of a type list. -/
def sigTextList : List Signature → List Nat
  | [] => []
  | t :: ts => sigText t ++ sigTextList ts

end

mutual

/-- Modelled from the spec: single-pass recursive-descent parse of one
complete type from signature text, returning the rest of the input.  The
`fuel` bounds recursion and is in surplus whenever it is at least the input
length.  Unknown type codes, unbalanced brackets and non-basic dictionary
keys fail with a signature-parse error; an empty structure `()` fails with
`EmptyStructure`. -/
def parseOne : Nat → List Nat → Except Error (Signature × List Nat)
  | 0, _ => .error (.SignatureParse .unexpectedEnd)
  | _ + 1, [] => .error (.SignatureParse .unexpectedEnd)
  | fuel + 1, c :: r =>
    if c = 121 then .ok (.byte, r)
    else if c = 98 then .ok (.boolean, r)
    else if c = 110 then .ok (.int16, r)
    else if c = 113 then .ok (.uint16, r)
    else if c = 105 then .ok (.int32, r)
    else if c = 117 then .ok (.uint32, r)
    else if c = 120 then .ok (.int64, r)
    else if c = 116 then .ok (.uint64, r)
    else if c = 100 then .ok (.double, r)
    else if c = 115 then .ok (.string, r)
    else if c = 111 then .ok (.objectPath, r)
    else if c = 103 then .ok (.signature, r)
    else if c = 104 then .ok (.unixFd, r)
    else if c = 118 then .ok (.variant, r)
    else if c = 97 then do
      let (e, r2) ← parseOne fuel r
      .ok (.array e, r2)
    else if c = 109 then do
      let (e, r2) ← parseOne fuel r
      .ok (.maybe e, r2)
    else if c = 40 then do
      let (fs, r2) ← parseFields fuel r
      if fs.isEmpty then .error .EmptyStructure else .ok (.struct fs, r2)
    else if c = 123 then do
      let (k, r2) ← parseOne fuel r
      if isBasic k then do
        let (v, r3) ← parseOne fuel r2
        match r3 with
        | 125 :: r4 => .ok (.dictEntry k v, r4)
        | _ => .error (.SignatureParse .unexpectedEnd)
      else .error (.SignatureParse .keyMustBeBasic)
    else .error (.SignatureParse (.invalidChar c))

/-- Parse structure fields up to the closing `)`. -/
def parseFields : Nat → List Nat → Except Error (List Signature × List Nat)
  | 0, _ => .error (.SignatureParse .unexpectedEnd)
  | _ + 1, [] => .error (.SignatureParse .unexpectedEnd)
  | fuel + 1, c :: r =>
    if c = 41 then .ok ([], r)
    else do
      let (t, r2) ← parseOne fuel (c :: r)
      let (ts, r3) ← parseFields fuel r2
      .ok (t :: ts, r3)

end

/-- Parse a signature that must be exactly one complete type (the form a
variant embeds). -/
def parseSingle (text : List Nat) : Except Error Signature := do
  let (t, rest) ← parseOne (2 * text.length + 1) text
  match rest with
  | [] => .ok t
  | c :: _ => .error (.SignatureParse (.invalidChar c))

/-- Parse a signature as zero or more complete types (the content of a
signature-typed value). -/
def parseMany : Nat → List Nat → Except Error (List Signature)
  | 0, _ => .error (.SignatureParse .unexpectedEnd)
  | _ + 1, [] => .ok []
  | fuel + 1, text => do
    let (t, rest) ← parseOne (fuel + 1) text
    let ts ← parseMany fuel rest
    .ok (t :: ts)

/-! ### Bus-format encoder

Modelled from the spec: the writer inserts zero padding before each value
to reach its type's alignment relative to the start of the outermost
buffer; arrays and strings carry a 4-byte length prefix; structs are 8-byte
aligned; variants embed their signature text length-prefixed and
NUL-terminated before the value; unix fds append to the table and write the
index; depth counters guard container nesting.

The result triple is `(bytes, padding positions, fd table)`: the encoded
bytes of the value (including its leading alignment padding), the absolute
buffer positions of every inserted padding byte, and the extended
file-descriptor table. -/

mutual

/-- Encode one value against type `t` at absolute position `pos` in the bus
format. -/
def encodeB : Limits → Depths → Signature → Value → Nat → List Nat →
    Except Error (List Nat × List Nat × List Nat)
  | lim, d, .byte, v, pos, fds =>
    let a := alignOf .bus .byte
    let p := padLen pos a
    let q := pos + p
    match v with
    | .byte n => if n < 256 then .ok ([n], [], fds) else .error .IncorrectType
    | _ => .error .IncorrectType
  | lim, d, .boolean, v, pos, fds =>
    let a := alignOf .bus .boolean
    let p := padLen pos a
    let q := pos + p
    match v with
    | .boolean b =>
        .ok (List.replicate p 0 ++ natLE 4 (if b then 1 else 0), padPositions pos p, fds)
    | _ => .error .IncorrectType
  | lim, d, .int16, v, pos, fds =>
    let a := alignOf .bus .int16
    let p := padLen pos a
    let q := pos + p
    match v with
    | .int16 i =>
        if -(2 ^ 15) ≤ i ∧ i < 2 ^ 15 then
          .ok (List.replicate p 0 ++ natLE 2 (toTwos 16 i), padPositions pos p, fds)
        else .error .IncorrectType
    | _ => .error .IncorrectType
  | lim, d, .uint16, v, pos, fds =>
    let a := alignOf .bus .uint16
    let p := padLen pos a
    let q := pos + p
    match v with
    | .uint16 n =>
        if n < 2 ^ 16 then
          .ok (List.replicate p 0 ++ natLE 2 n, padPositions pos p, fds)
        else .error .IncorrectType
    | _ => .error .IncorrectType
  | lim, d, .int32, v, pos, fds =>
    let a := alignOf .bus .int32
    let p := padLen pos a
    let q := pos + p
    match v with
    | .int32 i =>
        if -(2 ^ 31) ≤ i ∧ i < 2 ^ 31 then
          .ok (List.replicate p 0 ++ natLE 4 (toTwos 32 i), padPositions pos p, fds)
        else .error .IncorrectType
    | _ => .error .IncorrectType
  | lim, d, .uint32, v, pos, fds =>
    let a := alignOf .bus .uint32
    let p := padLen pos a
    let q := pos + p
    match v with
    | .uint32 n =>
        if n < 2 ^ 32 then
          .ok (List.replicate p 0 ++ natLE 4 n, padPositions pos p, fds)
        else .error .IncorrectType
    | _ => .error .IncorrectType
  | lim, d, .int64, v, pos, fds =>
    let a := alignOf .bus .int64
    let p := padLen pos a
    let q := pos + p
    match v with
    | .int64 i =>
        if -(2 ^ 63) ≤ i ∧ i < 2 ^ 63 then
          .ok (List.replicate p 0 ++ natLE 8 (toTwos 64 i), padPositions pos p, fds)
        else .error .IncorrectType
    | _ => .error .IncorrectType
  | lim, d, .uint64, v, pos, fds =>
    let a := alignOf .bus .uint64
    let p := padLen pos a
    let q := pos + p
    match v with
    | .uint64 n =>
        if n < 2 ^ 64 then
          .ok (List.replicate p 0 ++ natLE 8 n, padPositions pos p, fds)
        else .error .IncorrectType
    | _ => .error .IncorrectType
  | lim, d, .double, v, pos, fds =>
    let a := alignOf .bus .double
    let p := padLen pos a
    let q := pos + p
    match v with
    | .double bits =>
        if bits < 2 ^ 64 then
          .ok (List.replicate p 0 ++ natLE 8 bits, padPositions pos p, fds)
        else .error .IncorrectType
    | _ => .error .IncorrectType
  | lim, d, .string, v, pos, fds =>
    let a := alignOf .bus .string
    let p := padLen pos a
    let q := pos + p
    match v with
    | .string s =>
        if bytesOk s then
          match utf8Err 0 s with
          | some ue => .error (.Utf8 ue)
          | none =>
            if s.length < 2 ^ 32 then
              .ok (List.replicate p 0 ++ (natLE 4 s.length ++ (s ++ [0])),
                   padPositions pos p, fds)
            else .error .OutOfBounds
        else .error .IncorrectType
    | _ => .error .IncorrectType
  | lim, d, .objectPath, v, pos, fds =>
    let a := alignOf .bus .objectPath
    let p := padLen pos a
    let q := pos + p
    match v with
    | .objectPath s =>
        if bytesOk s then
          match utf8Err 0 s with
          | some ue => .error (.Utf8 ue)
          | none =>
            if validObjectPath s then
              if s.length < 2 ^ 32 then
                .ok (List.replicate p 0 ++ (natLE 4 s.length ++ (s ++ [0])),
                     padPositions pos p, fds)
              else .error .OutOfBounds
            else .error .InvalidObjectPath
        else .error .IncorrectType
    | _ => .error .IncorrectType
  | lim, d, .signature, v, pos, fds =>
    let a := alignOf .bus .signature
    let p := padLen pos a
    let q := pos + p
    match v with
    | .signature ts =>
        if validSigList ts then
          let text := sigTextList ts
          if text.length ≤ 255 then
            .ok (text.length :: (text ++ [0]), [], fds)
          else .error .OutOfBounds
        else .error .IncorrectType
    | _ => .error .IncorrectType
  | lim, d, .unixFd, v, pos, fds =>
    let a := alignOf .bus .unixFd
    let p := padLen pos a
    let q := pos + p
    match v with
    | .unixFd fd =>
        if fds.length < 2 ^ 32 then
          .ok (List.replicate p 0 ++ natLE 4 fds.length, padPositions pos p, fds ++ [fd])
        else .error .OutOfBounds
    | _ => .error .IncorrectType
  | lim, d, .variant, v, pos, fds =>
    let a := alignOf .bus .variant
    let p := padLen pos a
    let q := pos + p
    match v with
    | .variant t2 v2 => do
        let d2 := enterContainerD d
        checkDepth lim d2
        if containsMaybe t2 then .error (.IncompatibleFormat t2 .bus)
        else if !validSig t2 then .error .IncorrectType
        else
          let text := sigText t2
          if text.length ≤ 255 then do
            let head := text.length :: (text ++ [0])
            let (bb, pp, fds2) ← encodeB lim d2 t2 v2 (q + head.length) fds
            .ok (head ++ bb, pp, fds2)
          else .error .OutOfBounds
    | _ => .error .IncorrectType
  | lim, d, .array te, v, pos, fds =>
    let a := alignOf .bus (.array te)
    let p := padLen pos a
    let q := pos + p
    match v with
    | .array vs => do
        let d2 := enterArrayD d
        checkDepth lim d2
        let ea := alignOf .bus te
        let p2 := padLen (q + 4) ea
        let (bb, pp, fds2) ← encodeBItems lim d2 te vs (q + 4 + p2) fds
        if bb.length < 2 ^ 32 then
          .ok (List.replicate p 0 ++ (natLE 4 bb.length ++ (List.replicate p2 0 ++ bb)),
               padPositions pos p ++ (padPositions (q + 4) p2 ++ pp), fds2)
        else .error .OutOfBounds
    | _ => .error .IncorrectType
  | lim, d, .struct ts, v, pos, fds =>
    let a := alignOf .bus (.struct ts)
    let p := padLen pos a
    let q := pos + p
    match v with
    | .struct vs =>
        if ts.isEmpty then .error .EmptyStructure
        else do
          let d2 := enterStructD d
          checkDepth lim d2
          let (bb, pp, fds2) ← encodeBFields lim d2 ts vs q fds
          .ok (List.replicate p 0 ++ bb, padPositions pos p ++ pp, fds2)
    | _ => .error .IncorrectType
  | lim, d, .dictEntry tk tv, v, pos, fds =>
    let a := alignOf .bus (.dictEntry tk tv)
    let p := padLen pos a
    let q := pos + p
    match v with
    | .dictEntry vk vv =>
        if isBasic tk then do
          let d2 := enterStructD d
          checkDepth lim d2
          let (kb, kp, fds1) ← encodeB lim d2 tk vk q fds
          let (vb, vp, fds2) ← encodeB lim d2 tv vv (q + kb.length) fds1
          .ok (List.replicate p 0 ++ (kb ++ vb), padPositions pos p ++ (kp ++ vp), fds2)
        else .error .IncorrectType
    | _ => .error .IncorrectType
  | _, _, .maybe te, _, _, _ => .error (.IncompatibleFormat (.maybe te) .bus)



/-- Encode the items of a bus-format array back to back from `pos`. -/
def encodeBItems (lim : Limits) (d : Depths) (te : Signature) (vs : List Value)
    (pos : Nat) (fds : List Nat) : Except Error (List Nat × List Nat × List Nat) :=
  match vs with
  | [] => .ok ([], [], fds)
  | v :: rest => do
      let (b1, p1, f1) ← encodeB lim d te v pos fds
      let (b2, p2, f2) ← encodeBItems lim d te rest (pos + b1.length) f1
      .ok (b1 ++ b2, p1 ++ p2, f2)

/-- Encode the fields of a bus-format struct back to back from `pos`,
each against its own field type. -/
def encodeBFields (lim : Limits) (d : Depths) (ts : List Signature) (vs : List Value)
    (pos : Nat) (fds : List Nat) : Except Error (List Nat × List Nat × List Nat) :=
  match ts, vs with
  | [], [] => .ok ([], [], fds)
  | t :: ts2, v :: vs2 => do
      let (b1, p1, f1) ← encodeB lim d t v pos fds
      let (b2, p2, f2) ← encodeBFields lim d ts2 vs2 (pos + b1.length) f1
      .ok (b1 ++ b2, p1 ++ p2, f2)
  | _, _ => .error .IncorrectType

end

/-! ### Bus-format decoder

Modelled from the spec: mirrors the encoder's alignment rules, rejecting
any non-zero padding byte with `PaddingNot0`; arrays and strings read their
4-byte length prefix; variants re-enter the signature parser; unix-fd
indices beyond the supplied table yield `UnknownFd`; buffer exhaustion
yields `OutOfBounds`; the same three depth counters are enforced
symmetrically to the encoder.

The `fuel` argument only bounds recursion through variants and array
items, both of which consume buffer bytes; a fuel of one more than the
buffer length is always in surplus (exhaustion reports `OutOfBounds`). -/

mutual

/-- Decode one value of type `t` at `pos`, returning it with the position
after its encoding. -/
def decodeB : Limits → Depths → Nat → Signature → List Nat → Nat → List Nat →
    Except Error (Value × Nat)
  | _, _, 0, _, _, _, _ => .error .OutOfBounds
  | _, _, _ + 1, .byte, bytes, pos, _ => do
      checkZeros bytes pos (padLen pos (alignOf .bus .byte))
      let q := alignUp pos (alignOf .bus .byte)
      let n ← readByteAt bytes q
      .ok (.byte n, q + 1)
  | _, _, _ + 1, .boolean, bytes, pos, _ => do
      checkZeros bytes pos (padLen pos (alignOf .bus .boolean))
      let q := alignUp pos (alignOf .bus .boolean)
      let n ← readWord bytes q 4
      if n = 0 then .ok (.boolean false, q + 4)
      else if n = 1 then .ok (.boolean true, q + 4)
      else .error .IncorrectType
  | _, _, _ + 1, .int16, bytes, pos, _ => do
      checkZeros bytes pos (padLen pos (alignOf .bus .int16))
      let q := alignUp pos (alignOf .bus .int16)
      let n ← readWord bytes q 2
      .ok (.int16 (fromTwos 16 n), q + 2)
  | _, _, _ + 1, .uint16, bytes, pos, _ => do
      checkZeros bytes pos (padLen pos (alignOf .bus .uint16))
      let q := alignUp pos (alignOf .bus .uint16)
      let n ← readWord bytes q 2
      .ok (.uint16 n, q + 2)
  | _, _, _ + 1, .int32, bytes, pos, _ => do
      checkZeros bytes pos (padLen pos (alignOf .bus .int32))
      let q := alignUp pos (alignOf .bus .int32)
      let n ← readWord bytes q 4
      .ok (.int32 (fromTwos 32 n), q + 4)
  | _, _, _ + 1, .uint32, bytes, pos, _ => do
      checkZeros bytes pos (padLen pos (alignOf .bus .uint32))
      let q := alignUp pos (alignOf .bus .uint32)
      let n ← readWord bytes q 4
      .ok (.uint32 n, q + 4)
  | _, _, _ + 1, .int64, bytes, pos, _ => do
      checkZeros bytes pos (padLen pos (alignOf .bus .int64))
      let q := alignUp pos (alignOf .bus .int64)
      let n ← readWord bytes q 8
      .ok (.int64 (fromTwos 64 n), q + 8)
  | _, _, _ + 1, .uint64, bytes, pos, _ => do
      checkZeros bytes pos (padLen pos (alignOf .bus .uint64))
      let q := alignUp pos (alignOf .bus .uint64)
      let n ← readWord bytes q 8
      .ok (.uint64 n, q + 8)
  | _, _, _ + 1, .double, bytes, pos, _ => do
      checkZeros bytes pos (padLen pos (alignOf .bus .double))
      let q := alignUp pos (alignOf .bus .double)
      let n ← readWord bytes q 8
      .ok (.double n, q + 8)
  | _, _, _ + 1, .string, bytes, pos, _ => do
      checkZeros bytes pos (padLen pos (alignOf .bus .string))
      let q := alignUp pos (alignOf .bus .string)
      let len ← readWord bytes q 4
      if q + 4 + len + 1 ≤ bytes.length then do
        let s := readSlice bytes (q + 4) len
        let term ← readByteAt bytes (q + 4 + len)
        if term = 0 then
          match utf8Err 0 s with
          | some ue => .error (.Utf8 ue)
          | none => .ok (.string s, q + 4 + len + 1)
        else .error .IncorrectType
      else .error .OutOfBounds
  | _, _, _ + 1, .objectPath, bytes, pos, _ => do
      checkZeros bytes pos (padLen pos (alignOf .bus .objectPath))
      let q := alignUp pos (alignOf .bus .objectPath)
      let len ← readWord bytes q 4
      if q + 4 + len + 1 ≤ bytes.length then do
        let s := readSlice bytes (q + 4) len
        let term ← readByteAt bytes (q + 4 + len)
        if term = 0 then
          match utf8Err 0 s with
          | some ue => .error (.Utf8 ue)
          | none =>
            if validObjectPath s then .ok (.objectPath s, q + 4 + len + 1)
            else .error .InvalidObjectPath
        else .error .IncorrectType
      else .error .OutOfBounds
  | _, _, _ + 1, .signature, bytes, pos, _ => do
      checkZeros bytes pos (padLen pos (alignOf .bus .signature))
      let q := alignUp pos (alignOf .bus .signature)
      let len ← readByteAt bytes q
      if q + 1 + len + 1 ≤ bytes.length then do
        let s := readSlice bytes (q + 1) len
        let term ← readByteAt bytes (q + 1 + len)
        if term = 0 then do
          let ts ← parseMany (2 * len + 1) s
          .ok (.signature ts, q + 1 + len + 1)
        else .error .IncorrectType
      else .error .OutOfBounds
  | _, _, _ + 1, .unixFd, bytes, pos, fds => do
      checkZeros bytes pos (padLen pos (alignOf .bus .unixFd))
      let q := alignUp pos (alignOf .bus .unixFd)
      let idx ← readWord bytes q 4
      match fds[idx]? with
      | some fd => .ok (.unixFd fd, q + 4)
      | none => .error .UnknownFd
  | lim, d, fuel + 1, .variant, bytes, pos, fds => do
      let d2 := enterContainerD d
      checkDepth lim d2
      checkZeros bytes pos (padLen pos (alignOf .bus .variant))
      let q := alignUp pos (alignOf .bus .variant)
      let len ← readByteAt bytes q
      if q + 1 + len + 1 ≤ bytes.length then do
        let text := readSlice bytes (q + 1) len
        let term ← readByteAt bytes (q + 1 + len)
        if term = 0 then do
          let t2 ← parseSingle text
          if containsMaybe t2 then .error (.IncompatibleFormat t2 .bus)
          else do
            let (v2, pos2) ← decodeB lim d2 fuel t2 bytes (q + 1 + len + 1) fds
            .ok (.variant t2 v2, pos2)
        else .error .IncorrectType
      else .error .OutOfBounds
  | lim, d, fuel + 1, .array te, bytes, pos, fds => do
      let d2 := enterArrayD d
      checkDepth lim d2
      checkZeros bytes pos (padLen pos (alignOf .bus (.array te)))
      let q := alignUp pos (alignOf .bus (.array te))
      let len ← readWord bytes q 4
      checkZeros bytes (q + 4) (padLen (q + 4) (alignOf .bus te))
      let estart := alignUp (q + 4) (alignOf .bus te)
      if estart + len ≤ bytes.length then do
        let (vs, pos2) ← decodeBItems lim d2 (fuel + 1) te bytes (estart + len) estart fds
        .ok (.array vs, pos2)
      else .error .OutOfBounds
  | lim, d, fuel + 1, .struct ts, bytes, pos, fds =>
      if ts.isEmpty then .error .EmptyStructure
      else do
        let d2 := enterStructD d
        checkDepth lim d2
        checkZeros bytes pos (padLen pos (alignOf .bus (.struct ts)))
        let q := alignUp pos (alignOf .bus (.struct ts))
        let (vs, pos2) ← decodeBFields lim d2 (fuel + 1) ts bytes q fds
        .ok (.struct vs, pos2)
  | lim, d, fuel + 1, .dictEntry tk tv, bytes, pos, fds =>
      if isBasic tk then do
        let d2 := enterStructD d
        checkDepth lim d2
        checkZeros bytes pos (padLen pos (alignOf .bus (.dictEntry tk tv)))
        let q := alignUp pos (alignOf .bus (.dictEntry tk tv))
        let (vk, p1) ← decodeB lim d2 (fuel + 1) tk bytes q fds
        let (vv, p2) ← decodeB lim d2 (fuel + 1) tv bytes p1 fds
        .ok (.dictEntry vk vv, p2)
      else .error .IncorrectType
  | _, _, _ + 1, .maybe te, _, _, _ => .error (.IncompatibleFormat (.maybe te) .bus)
termination_by _ _ fuel t _ _ _ => (fuel, sizeOf t, 0)

/-- Decode struct fields in order from `pos`. -/
def decodeBFields (lim : Limits) (d : Depths) (fuel : Nat) (ts : List Signature)
    (bytes : List Nat) (pos : Nat) (fds : List Nat) : Except Error (List Value × Nat) :=
  match ts with
  | [] => .ok ([], pos)
  | t :: ts2 => do
      let (v, p2) ← decodeB lim d fuel t bytes pos fds
      let (vs, p3) ← decodeBFields lim d fuel ts2 bytes p2 fds
      .ok (v :: vs, p3)
termination_by (fuel, sizeOf ts, 1)

/-- Decode array items from `pos` until exactly `endPos` is consumed. -/
def decodeBItems (lim : Limits) (d : Depths) (fuel : Nat) (te : Signature)
    (bytes : List Nat) (endPos pos : Nat) (fds : List Nat) :
    Except Error (List Value × Nat) :=
  match fuel with
  | 0 => .error .OutOfBounds
  | fuel + 1 =>
    if endPos ≤ pos then
      if pos = endPos then .ok ([], pos) else .error .OutOfBounds
    else do
      let (v, p2) ← decodeB lim d (fuel + 1) te bytes pos fds
      let (vs, p3) ← decodeBItems lim d fuel te bytes endPos p2 fds
      .ok (v :: vs, p3)
termination_by (fuel, sizeOf te, 2)

end

/-! ### Compact format: fixed sizes and framing-offset widths -/

mutual

/-- The encoded size of a fixed-size type in the compact format: basic
types except the length-less strings are fixed, and a struct or dictionary
entry of fixed fields is fixed, its layout rounded up to its 8-byte
alignment.  Variable-size types yield `none`. -/
def fixedSize : Signature → Option Nat
  | .byte => some 1
  | .boolean => some 1
  | .int16 => some 2
  | .uint16 => some 2
  | .int32 => some 4
  | .uint32 => some 4
  | .int64 => some 8
  | .uint64 => some 8
  | .double => some 8
  | .string => none
  | .objectPath => none
  | .signature => none
  | .unixFd => some 4
  | .variant => none
  | .array _ => none
  | .struct fs =>
    match fixedSizeFields fs 0 with
    | some e => some (alignUp e 8)
    | none => none
  | .dictEntry k v =>
    match fixedSize k, fixedSize v with
    | some sk, some sv => some (alignUp (alignUp sk (alignOf .compact v) + sv) 8)
    | _, _ => none
  | .maybe _ => none

/-- The end of the layout of a fixed field list starting at offset `e`. -/
def fixedSizeFields : List Signature → Nat → Option Nat
  | [], e => some e
  | t :: ts, e =>
    match fixedSize t with
    | some st => fixedSizeFields ts (alignUp e (alignOf .compact t) + st)
    | none => none

end

/-- The number of variable-size fields in a list: the fields that get a
framing offset in the compact format. -/
def countVarFields : List Signature → Nat
  | [] => 0
  | t :: ts => (match fixedSize t with | none => 1 | some _ => 0) + countVarFields ts

/-- Encoder choice of framing-offset width: the minimal integer width
(1/2/4/8 bytes) addressing the container's total size, body plus the `k`
offsets themselves. -/
def chooseOffW (bodyLen k : Nat) : Option Nat :=
  if bodyLen + k * 1 ≤ 2 ^ 8 then some 1
  else if bodyLen + k * 2 ≤ 2 ^ 16 then some 2
  else if bodyLen + k * 4 ≤ 2 ^ 32 then some 4
  else if bodyLen + k * 8 ≤ 2 ^ 64 then some 8
  else none

/-- Decoder recovery of the offset width from the container's total
size. -/
def sizeW (total : Nat) : Option Nat :=
  if total ≤ 2 ^ 8 then some 1
  else if total ≤ 2 ^ 16 then some 2
  else if total ≤ 2 ^ 32 then some 4
  else if total ≤ 2 ^ 64 then some 8
  else none

/-! ### Compact-format encoder

Modelled from the spec: same alignment discipline as the bus format (with
the compact alignment table), but instead of length prefixes,
variable-size trailing elements append framing offsets — the byte position
where the element ends, relative to the container's content — at the tail
of the enclosing container; offsets use the minimal width addressing the
container's total size.  An array of variable-size elements stores one
offset per element in order (so the last tail word marks the end of the
body); a struct stores the ends of its variable-size fields, innermost
last; a fixed-size struct instead zero-pads to its fixed size.  A maybe
encodes nothing as the empty sequence and a variable-size element with a
trailing zero marker. -/

mutual

/-- Encode one value against type `t` at absolute position `pos` in the
compact format, as `(bytes, padding positions, fd table)`. -/
def encodeC : Limits → Depths → Signature → Value → Nat → List Nat →
    Except Error (List Nat × List Nat × List Nat)
  | lim, d, .byte, v, pos, fds =>
    let a := alignOf .compact .byte
    let p := padLen pos a
    let q := pos + p
    match v with
    | .byte n => if n < 256 then .ok ([n], [], fds) else .error .IncorrectType
    | _ => .error .IncorrectType
  | lim, d, .boolean, v, pos, fds =>
    let a := alignOf .compact .boolean
    let p := padLen pos a
    let q := pos + p
    match v with
    | .boolean b => .ok ([if b then 1 else 0], [], fds)
    | _ => .error .IncorrectType
  | lim, d, .int16, v, pos, fds =>
    let a := alignOf .compact .int16
    let p := padLen pos a
    let q := pos + p
    match v with
    | .int16 i =>
        if -(2 ^ 15) ≤ i ∧ i < 2 ^ 15 then
          .ok (List.replicate p 0 ++ natLE 2 (toTwos 16 i), padPositions pos p, fds)
        else .error .IncorrectType
    | _ => .error .IncorrectType
  | lim, d, .uint16, v, pos, fds =>
    let a := alignOf .compact .uint16
    let p := padLen pos a
    let q := pos + p
    match v with
    | .uint16 n =>
        if n < 2 ^ 16 then
          .ok (List.replicate p 0 ++ natLE 2 n, padPositions pos p, fds)
        else .error .IncorrectType
    | _ => .error .IncorrectType
  | lim, d, .int32, v, pos, fds =>
    let a := alignOf .compact .int32
    let p := padLen pos a
    let q := pos + p
    match v with
    | .int32 i =>
        if -(2 ^ 31) ≤ i ∧ i < 2 ^ 31 then
          .ok (List.replicate p 0 ++ natLE 4 (toTwos 32 i), padPositions pos p, fds)
        else .error .IncorrectType
    | _ => .error .IncorrectType
  | lim, d, .uint32, v, pos, fds =>
    let a := alignOf .compact .uint32
    let p := padLen pos a
    let q := pos + p
    match v with
    | .uint32 n =>
        if n < 2 ^ 32 then
          .ok (List.replicate p 0 ++ natLE 4 n, padPositions pos p, fds)
        else .error .IncorrectType
    | _ => .error .IncorrectType
  | lim, d, .int64, v, pos, fds =>
    let a := alignOf .compact .int64
    let p := padLen pos a
    let q := pos + p
    match v with
    | .int64 i =>
        if -(2 ^ 63) ≤ i ∧ i < 2 ^ 63 then
          .ok (List.replicate p 0 ++ natLE 8 (toTwos 64 i), padPositions pos p, fds)
        else .error .IncorrectType
    | _ => .error .IncorrectType
  | lim, d, .uint64, v, pos, fds =>
    let a := alignOf .compact .uint64
    let p := padLen pos a
    let q := pos + p
    match v with
    | .uint64 n =>
        if n < 2 ^ 64 then
          .ok (List.replicate p 0 ++ natLE 8 n, padPositions pos p, fds)
        else .error .IncorrectType
    | _ => .error .IncorrectType
  | lim, d, .double, v, pos, fds =>
    let a := alignOf .compact .double
    let p := padLen pos a
    let q := pos + p
    match v with
    | .double bits =>
        if bits < 2 ^ 64 then
          .ok (List.replicate p 0 ++ natLE 8 bits, padPositions pos p, fds)
        else .error .IncorrectType
    | _ => .error .IncorrectType
  | lim, d, .string, v, pos, fds =>
    let a := alignOf .compact .string
    let p := padLen pos a
    let q := pos + p
    match v with
    | .string s =>
        if bytesOk s then
          match utf8Err 0 s with
          | some ue => .error (.Utf8 ue)
          | none => .ok (s ++ [0], [], fds)
        else .error .IncorrectType
    | _ => .error .IncorrectType
  | lim, d, .objectPath, v, pos, fds =>
    let a := alignOf .compact .objectPath
    let p := padLen pos a
    let q := pos + p
    match v with
    | .objectPath s =>
        if bytesOk s then
          match utf8Err 0 s with
          | some ue => .error (.Utf8 ue)
          | none =>
            if validObjectPath s then .ok (s ++ [0], [], fds)
            else .error .InvalidObjectPath
        else .error .IncorrectType
    | _ => .error .IncorrectType
  | lim, d, .signature, v, pos, fds =>
    let a := alignOf .compact .signature
    let p := padLen pos a
    let q := pos + p
    match v with
    | .signature ts =>
        if validSigList ts then .ok (sigTextList ts ++ [0], [], fds)
        else .error .IncorrectType
    | _ => .error .IncorrectType
  | lim, d, .unixFd, v, pos, fds =>
    let a := alignOf .compact .unixFd
    let p := padLen pos a
    let q := pos + p
    match v with
    | .unixFd fd =>
        if fds.length < 2 ^ 32 then
          .ok (List.replicate p 0 ++ natLE 4 fds.length, padPositions pos p, fds ++ [fd])
        else .error .OutOfBounds
    | _ => .error .IncorrectType
  | lim, d, .variant, v, pos, fds =>
    let a := alignOf .compact .variant
    let p := padLen pos a
    let q := pos + p
    match v with
    | .variant t2 v2 => do
        let d2 := enterContainerD d
        checkDepth lim d2
        if !validSig t2 then .error .IncorrectType
        else
          let text := sigText t2
          if text.length ≤ 255 then do
            let head := text.length :: (text ++ [0])
            let (bb, pp, fds2) ← encodeC lim d2 t2 v2 (q + head.length) fds
            .ok (List.replicate p 0 ++ (head ++ bb), padPositions pos p ++ pp, fds2)
          else .error .OutOfBounds
    | _ => .error .IncorrectType
  | lim, d, .array te, v, pos, fds =>
    let a := alignOf .compact (.array te)
    let p := padLen pos a
    let q := pos + p
    match v with
    | .array vs => do
        let d2 := enterArrayD d
        checkDepth lim d2
        match fixedSize te with
        | some _ => do
            let (bb, pp, fds2) ← encodeCItems lim d2 te vs q fds
            .ok (List.replicate p 0 ++ bb, padPositions pos p ++ pp, fds2)
        | none => do
            let (bb, pp, fds2, ends) ← encodeCItemsVar lim d2 te vs q q fds
            match ends with
            | [] => .ok (List.replicate p 0 ++ bb, padPositions pos p ++ pp, fds2)
            | _ =>
              match chooseOffW bb.length ends.length with
              | some w =>
                  .ok (List.replicate p 0 ++ (bb ++ ends.flatMap (natLE w)),
                       padPositions pos p ++ pp, fds2)
              | none => .error .OutOfBounds
    | _ => .error .IncorrectType
  | lim, d, .struct ts, v, pos, fds =>
    let a := alignOf .compact (.struct ts)
    let p := padLen pos a
    let q := pos + p
    match v with
    | .struct vs =>
        if ts.isEmpty then .error .EmptyStructure
        else do
          let d2 := enterStructD d
          checkDepth lim d2
          let (bb, pp, fds2, varEnds) ← encodeCFields lim d2 ts vs q q fds
          match fixedSize (.struct ts) with
          | some n =>
              .ok (List.replicate p 0 ++ (bb ++ List.replicate (n - bb.length) 0),
                   padPositions pos p ++ (pp ++ padPositions (q + bb.length) (n - bb.length)),
                   fds2)
          | none =>
            match varEnds with
            | [] => .error .IncorrectType
            | _ =>
              match chooseOffW bb.length varEnds.length with
              | some w =>
                  .ok (List.replicate p 0 ++ (bb ++ varEnds.reverse.flatMap (natLE w)),
                       padPositions pos p ++ pp, fds2)
              | none => .error .OutOfBounds
    | _ => .error .IncorrectType
  | lim, d, .dictEntry tk tv, v, pos, fds =>
    let a := alignOf .compact (.dictEntry tk tv)
    let p := padLen pos a
    let q := pos + p
    match v with
    | .dictEntry vk vv =>
        if isBasic tk then do
          let d2 := enterStructD d
          checkDepth lim d2
          let (kb, kp, fds1) ← encodeC lim d2 tk vk q fds
          let (vb, vp, fds2) ← encodeC lim d2 tv vv (q + kb.length) fds1
          let body := kb ++ vb
          match fixedSize (.dictEntry tk tv) with
          | some n =>
              .ok (List.replicate p 0 ++ (body ++ List.replicate (n - body.length) 0),
                   padPositions pos p ++
                     (kp ++ (vp ++ padPositions (q + body.length) (n - body.length))),
                   fds2)
          | none =>
            let varEnds :=
              (match fixedSize tk with | none => [kb.length] | some _ => []) ++
                (match fixedSize tv with | none => [body.length] | some _ => [])
            match chooseOffW body.length varEnds.length with
            | some w =>
                .ok (List.replicate p 0 ++ (body ++ varEnds.reverse.flatMap (natLE w)),
                     padPositions pos p ++ (kp ++ vp), fds2)
            | none => .error .OutOfBounds
        else .error .IncorrectType
    | _ => .error .IncorrectType
  | lim, d, .maybe te, v, pos, fds =>
    let a := alignOf .compact (.maybe te)
    let p := padLen pos a
    let q := pos + p
    match v with
    | .maybe none => do
        let d2 := enterContainerD d
        checkDepth lim d2
        .ok ([], [], fds)
    | .maybe (some x) => do
        let d2 := enterContainerD d
        checkDepth lim d2
        let (bb, pp, fds2) ← encodeC lim d2 te x pos fds
        match fixedSize te with
        | some _ => .ok (bb, pp, fds2)
        | none => .ok (bb ++ [0], pp, fds2)
    | _ => .error .IncorrectType



/-- Encode the items of a compact array of fixed-size elements back to
back from `pos`. -/
def encodeCItems (lim : Limits) (d : Depths) (te : Signature) (vs : List Value)
    (pos : Nat) (fds : List Nat) : Except Error (List Nat × List Nat × List Nat) :=
  match vs with
  | [] => .ok ([], [], fds)
  | v :: rest => do
      let (b1, p1, f1) ← encodeC lim d te v pos fds
      let (b2, p2, f2) ← encodeCItems lim d te rest (pos + b1.length) f1
      .ok (b1 ++ b2, p1 ++ p2, f2)

/-- Encode the items of a compact array of variable-size elements,
also returning each element's end relative to the content base `base`. -/
def encodeCItemsVar (lim : Limits) (d : Depths) (te : Signature) (vs : List Value)
    (pos base : Nat) (fds : List Nat) :
    Except Error (List Nat × List Nat × List Nat × List Nat) :=
  match vs with
  | [] => .ok ([], [], fds, [])
  | v :: rest => do
      let (b1, p1, f1) ← encodeC lim d te v pos fds
      let (b2, p2, f2, ends) ← encodeCItemsVar lim d te rest (pos + b1.length) base f1
      .ok (b1 ++ b2, p1 ++ p2, f2, (pos + b1.length - base) :: ends)

/-- Encode compact struct fields back to back from `pos`, returning the
ends (relative to the content base `base`) of the variable-size fields. -/
def encodeCFields (lim : Limits) (d : Depths) (ts : List Signature) (vs : List Value)
    (pos base : Nat) (fds : List Nat) :
    Except Error (List Nat × List Nat × List Nat × List Nat) :=
  match ts, vs with
  | [], [] => .ok ([], [], fds, [])
  | t :: ts2, v :: vs2 => do
      let (b1, p1, f1) ← encodeC lim d t v pos fds
      let (b2, p2, f2, ends) ← encodeCFields lim d ts2 vs2 (pos + b1.length) base f1
      match fixedSize t with
      | none => .ok (b1 ++ b2, p1 ++ p2, f2, (pos + b1.length - base) :: ends)
      | some _ => .ok (b1 ++ b2, p1 ++ p2, f2, ends)
  | _, _ => .error .IncorrectType

end

/-! ### Compact-format decoder -/

mutual

/-- A weight on signatures used as a termination measure for the decoders:
a dictionary entry weighs more than the two-element list of its parts. -/
def sigW : Signature → Nat
  | .array e => sigW e + 1
  | .struct fs => sigWList fs + 1
  | .dictEntry k v => sigW k + sigW v + 5
  | .maybe e => sigW e + 1
  | _ => 1

/-- Weight of a signature list. -/
def sigWList : List Signature → Nat
  | [] => 0
  | t :: ts => sigW t + sigWList ts + 1

end

attribute [simp] sigW sigWList

/-- Read `n` consecutive `w`-byte framing offsets. -/
def readOffsets (bytes : List Nat) (pos w : Nat) : Nat → Except Error (List Nat)
  | 0 => .ok []
  | n + 1 => do
    let d ← readWord bytes pos w
    let rest ← readOffsets bytes (pos + w) w n
    .ok (d :: rest)

mutual

/-- Decode the compact encoding of type `t` occupying exactly the slice
`[s, e)` of the buffer.  For compact-format variable elements the trailing
offsets are read back to front to locate each element's end; a missing or
malformed offset table yields `MissingFramingOffset`; non-zero padding is
rejected with `PaddingNot0`; depth counters mirror the encoder. -/
def decodeC : Limits → Depths → Nat → Signature → List Nat → Nat → Nat → List Nat →
    Except Error Value
  | _, _, 0, _, _, _, _, _ => .error .OutOfBounds
  | lim, d, fuel + 1, .byte, bytes, s, e, fds =>
      let a := alignOf .compact .byte
      let q := alignUp s a
      (
      do
      checkZeros bytes s (padLen s a)
      if e = q + 1 then do
        let n ← readByteAt bytes q
        .ok (.byte n)
      else .error .OutOfBounds)
  | lim, d, fuel + 1, .boolean, bytes, s, e, fds =>
      let a := alignOf .compact .boolean
      let q := alignUp s a
      (
      do
      checkZeros bytes s (padLen s a)
      if e = q + 1 then do
        let n ← readByteAt bytes q
        if n = 0 then .ok (.boolean false)
        else if n = 1 then .ok (.boolean true)
        else .error .IncorrectType
      else .error .OutOfBounds)
  | lim, d, fuel + 1, .int16, bytes, s, e, fds =>
      let a := alignOf .compact .int16
      let q := alignUp s a
      (
      do
      checkZeros bytes s (padLen s a)
      if e = q + 2 then do
        let n ← readWord bytes q 2
        .ok (.int16 (fromTwos 16 n))
      else .error .OutOfBounds)
  | lim, d, fuel + 1, .uint16, bytes, s, e, fds =>
      let a := alignOf .compact .uint16
      let q := alignUp s a
      (
      do
      checkZeros bytes s (padLen s a)
      if e = q + 2 then do
        let n ← readWord bytes q 2
        .ok (.uint16 n)
      else .error .OutOfBounds)
  | lim, d, fuel + 1, .int32, bytes, s, e, fds =>
      let a := alignOf .compact .int32
      let q := alignUp s a
      (
      do
      checkZeros bytes s (padLen s a)
      if e = q + 4 then do
        let n ← readWord bytes q 4
        .ok (.int32 (fromTwos 32 n))
      else .error .OutOfBounds)
  | lim, d, fuel + 1, .uint32, bytes, s, e, fds =>
      let a := alignOf .compact .uint32
      let q := alignUp s a
      (
      do
      checkZeros bytes s (padLen s a)
      if e = q + 4 then do
        let n ← readWord bytes q 4
        .ok (.uint32 n)
      else .error .OutOfBounds)
  | lim, d, fuel + 1, .int64, bytes, s, e, fds =>
      let a := alignOf .compact .int64
      let q := alignUp s a
      (
      do
      checkZeros bytes s (padLen s a)
      if e = q + 8 then do
        let n ← readWord bytes q 8
        .ok (.int64 (fromTwos 64 n))
      else .error .OutOfBounds)
  | lim, d, fuel + 1, .uint64, bytes, s, e, fds =>
      let a := alignOf .compact .uint64
      let q := alignUp s a
      (
      do
      checkZeros bytes s (padLen s a)
      if e = q + 8 then do
        let n ← readWord bytes q 8
        .ok (.uint64 n)
      else .error .OutOfBounds)
  | lim, d, fuel + 1, .double, bytes, s, e, fds =>
      let a := alignOf .compact .double
      let q := alignUp s a
      (
      do
      checkZeros bytes s (padLen s a)
      if e = q + 8 then do
        let n ← readWord bytes q 8
        .ok (.double n)
      else .error .OutOfBounds)
  | lim, d, fuel + 1, .string, bytes, s, e, fds =>
      let a := alignOf .compact .string
      let q := alignUp s a
      (
      do
      if q + 1 ≤ e ∧ e ≤ bytes.length then do
        let content := readSlice bytes q (e - 1 - q)
        let term ← readByteAt bytes (e - 1)
        if term = 0 then
          match utf8Err 0 content with
          | some ue => .error (.Utf8 ue)
          | none => .ok (.string content)
        else .error .IncorrectType
      else .error .OutOfBounds)
  | lim, d, fuel + 1, .objectPath, bytes, s, e, fds =>
      let a := alignOf .compact .objectPath
      let q := alignUp s a
      (
      do
      if q + 1 ≤ e ∧ e ≤ bytes.length then do
        let content := readSlice bytes q (e - 1 - q)
        let term ← readByteAt bytes (e - 1)
        if term = 0 then
          match utf8Err 0 content with
          | some ue => .error (.Utf8 ue)
          | none =>
            if validObjectPath content then .ok (.objectPath content)
            else .error .InvalidObjectPath
        else .error .IncorrectType
      else .error .OutOfBounds)
  | lim, d, fuel + 1, .signature, bytes, s, e, fds =>
      let a := alignOf .compact .signature
      let q := alignUp s a
      (
      do
      if q + 1 ≤ e ∧ e ≤ bytes.length then do
        let content := readSlice bytes q (e - 1 - q)
        let term ← readByteAt bytes (e - 1)
        if term = 0 then do
          let ts ← parseMany (2 * content.length + 1) content
          .ok (.signature ts)
        else .error .IncorrectType
      else .error .OutOfBounds)
  | lim, d, fuel + 1, .unixFd, bytes, s, e, fds =>
      let a := alignOf .compact .unixFd
      let q := alignUp s a
      (
      do
      checkZeros bytes s (padLen s a)
      if e = q + 4 then do
        let idx ← readWord bytes q 4
        match fds[idx]? with
        | some fd => .ok (.unixFd fd)
        | none => .error .UnknownFd
      else .error .OutOfBounds)
  | lim, d, fuel + 1, .variant, bytes, s, e, fds =>
      let a := alignOf .compact .variant
      let q := alignUp s a
      (
      do
      let d2 := enterContainerD d
      checkDepth lim d2
      checkZeros bytes s (padLen s a)
      let len ← readByteAt bytes q
      if q + 1 + len + 1 ≤ e then do
        let text := readSlice bytes (q + 1) len
        let term ← readByteAt bytes (q + 1 + len)
        if term = 0 then do
          let t2 ← parseSingle text
          let v2 ← decodeC lim d2 fuel t2 bytes (q + 1 + len + 1) e fds
          .ok (.variant t2 v2)
        else .error .IncorrectType
      else .error .OutOfBounds)
  | lim, d, fuel + 1, .array te, bytes, s, e, fds =>
      let a := alignOf .compact (.array te)
      let q := alignUp s a
      (
      do
      let d2 := enterArrayD d
      checkDepth lim d2
      checkZeros bytes s (padLen s a)
      match fixedSize te with
      | some es =>
          let len := e - q
          if q ≤ e ∧ e ≤ bytes.length then
            if es = 0 then
              if len = 0 then .ok (.array []) else .error .IncorrectType
            else
              if len % es = 0 then do
                let vs ← decodeCItems lim d2 (fuel + 1) te bytes q es (len / es) fds
                .ok (.array vs)
              else .error .OutOfBounds
          else .error .OutOfBounds
      | none =>
          let len := e - q
          if q ≤ e ∧ e ≤ bytes.length then
            if len = 0 then .ok (.array [])
            else
              match sizeW len with
              | some w =>
                  if w ≤ len then do
                    let c ← readWord bytes (e - w) w
                    if c ≤ len ∧ (len - c) % w = 0 ∧ 0 < (len - c) / w then do
                      let n := (len - c) / w
                      let ends ← readOffsets bytes (q + c) w n
                      let vs ← decodeCItemsVar lim d2 (fuel + 1) te bytes q 0 c ends fds
                      .ok (.array vs)
                    else .error .MissingFramingOffset
                  else .error .MissingFramingOffset
              | none => .error .OutOfBounds
          else .error .OutOfBounds)
  | lim, d, fuel + 1, .struct ts, bytes, s, e, fds =>
      let a := alignOf .compact (.struct ts)
      let q := alignUp s a
      (
      if ts.isEmpty then .error .EmptyStructure
      else do
        let d2 := enterStructD d
        checkDepth lim d2
        checkZeros bytes s (padLen s a)
        let len := e - q
        if q ≤ e ∧ e ≤ bytes.length then
          match fixedSize (.struct ts) with
          | some n =>
              if len = n then do
                let (vs, fin) ← decodeCFields lim d2 (fuel + 1) ts bytes q q e [] fds
                checkZeros bytes fin (e - fin)
                .ok (.struct vs)
              else .error .OutOfBounds
          | none => do
              let k := countVarFields ts
              match sizeW len with
              | some w =>
                  if k * w ≤ len then do
                    let tbl := e - k * w
                    let ends ← readOffsets bytes tbl w k
                    let (vs, fin) ←
                      decodeCFields lim d2 (fuel + 1) ts bytes q q tbl ends.reverse fds
                    if fin = tbl then .ok (.struct vs)
                    else .error .MissingFramingOffset
                  else .error .MissingFramingOffset
              | none => .error .OutOfBounds
        else .error .OutOfBounds)
  | lim, d, fuel + 1, .dictEntry tk tv, bytes, s, e, fds =>
      let a := alignOf .compact (.dictEntry tk tv)
      let q := alignUp s a
      (
      if isBasic tk then do
        let d2 := enterStructD d
        checkDepth lim d2
        checkZeros bytes s (padLen s a)
        let len := e - q
        if q ≤ e ∧ e ≤ bytes.length then
          match fixedSize (.dictEntry tk tv) with
          | some n =>
              if len = n then do
                let (vs, fin) ←
                  decodeCFields lim d2 (fuel + 1) [tk, tv] bytes q q e [] fds
                checkZeros bytes fin (e - fin)
                match vs with
                | [vk, vv] => .ok (.dictEntry vk vv)
                | _ => .error .IncorrectType
              else .error .OutOfBounds
          | none => do
              let k := countVarFields [tk, tv]
              match sizeW len with
              | some w =>
                  if k * w ≤ len then do
                    let tbl := e - k * w
                    let ends ← readOffsets bytes tbl w k
                    let (vs, fin) ←
                      decodeCFields lim d2 (fuel + 1) [tk, tv] bytes q q tbl
                        ends.reverse fds
                    if fin = tbl then
                      match vs with
                      | [vk, vv] => .ok (.dictEntry vk vv)
                      | _ => .error .IncorrectType
                    else .error .MissingFramingOffset
                  else .error .MissingFramingOffset
              | none => .error .OutOfBounds
        else .error .OutOfBounds
      else .error .IncorrectType)
  | lim, d, fuel + 1, .maybe te, bytes, s, e, fds =>
      let a := alignOf .compact (.maybe te)
      let q := alignUp s a
      (
      do
      let d2 := enterContainerD d
      checkDepth lim d2
      if s = e then .ok (.maybe none)
      else
        match fixedSize te with
        | some _ => do
            let x ← decodeC lim d2 (fuel + 1) te bytes s e fds
            .ok (.maybe (some x))
        | none => do
            if s + 1 ≤ e ∧ e ≤ bytes.length then do
              let term ← readByteAt bytes (e - 1)
              if term = 0 then do
                let x ← decodeC lim d2 (fuel + 1) te bytes s (e - 1) fds
                .ok (.maybe (some x))
              else .error .IncorrectType
            else .error .OutOfBounds)
termination_by _ _ fuel t _ _ _ _ => (fuel, sigW t, 0, 0)

/-- Decode `n` fixed-size compact array items of stride `es` from `q`. -/
def decodeCItems (lim : Limits) (d : Depths) (fuel : Nat) (te : Signature)
    (bytes : List Nat) (q es : Nat) (n : Nat) (fds : List Nat) :
    Except Error (List Value) :=
  match n with
  | 0 => .ok []
  | n + 1 => do
      let v ← decodeC lim d fuel te bytes q (q + es) fds
      let vs ← decodeCItems lim d fuel te bytes (q + es) es n fds
      .ok (v :: vs)
termination_by (fuel, sigW te, 1, n)

/-- Decode variable-size compact array items: element `i` occupies the
bytes from the previous element's end to its framing offset. -/
def decodeCItemsVar (lim : Limits) (d : Depths) (fuel : Nat) (te : Signature)
    (bytes : List Nat) (base prevEnd bodyLen : Nat) (ends : List Nat)
    (fds : List Nat) : Except Error (List Value) :=
  match ends with
  | [] => if prevEnd = bodyLen then .ok [] else .error .MissingFramingOffset
  | dEnd :: rest =>
      if prevEnd ≤ dEnd ∧ dEnd ≤ bodyLen then do
        let v ← decodeC lim d fuel te bytes (base + prevEnd) (base + dEnd) fds
        let vs ← decodeCItemsVar lim d fuel te bytes base dEnd bodyLen rest fds
        .ok (v :: vs)
      else .error .MissingFramingOffset
termination_by (fuel, sigW te, 1, ends.length)

/-- Decode compact struct fields sequentially: fixed-size fields at their
layout position, variable-size fields ending at their next framing offset
(relative to the content base). -/
def decodeCFields (lim : Limits) (d : Depths) (fuel : Nat) (ts : List Signature)
    (bytes : List Nat) (pos base limit : Nat) (varEnds : List Nat)
    (fds : List Nat) : Except Error (List Value × Nat) :=
  match ts with
  | [] =>
    match varEnds with
    | [] => .ok ([], pos)
    | _ => .error .MissingFramingOffset
  | t :: ts2 =>
    match fixedSize t with
    | some n => do
        let fend := alignUp pos (alignOf .compact t) + n
        if fend ≤ limit then do
          let v ← decodeC lim d fuel t bytes pos fend fds
          let (vs, fin) ← decodeCFields lim d fuel ts2 bytes fend base limit varEnds fds
          .ok (v :: vs, fin)
        else .error .OutOfBounds
    | none =>
      match varEnds with
      | [] => .error .MissingFramingOffset
      | dEnd :: rest => do
          let fend := base + dEnd
          if pos ≤ fend ∧ fend ≤ limit then do
            let v ← decodeC lim d fuel t bytes pos fend fds
            let (vs, fin) ← decodeCFields lim d fuel ts2 bytes fend base limit rest fds
            .ok (v :: vs, fin)
          else .error .MissingFramingOffset
termination_by (fuel, sigWList ts, 2, 0)

end

/-! ### Top-level contracts -/

/-- Modelled from the spec: `encode(value, type, format, fd_table) ->
bytes | Error`.  A signature that is syntactically valid but unsupported in
the requested format (`maybe` outside the compact format) yields
`IncompatibleFormat(signature, format)`.  The result also carries the
positions of the inserted padding bytes and the extended fd table. -/
def encode (v : Value) (t : Signature) (f : Format) (fds : List Nat) (lim : Limits) :
    Except Error (List Nat × List Nat × List Nat) :=
  match f with
  | .bus =>
      if containsMaybe t then .error (.IncompatibleFormat t .bus)
      else encodeB lim .zero t v 0 fds
  | .compact => encodeC lim .zero t v 0 fds

/-- Modelled from the spec: `decode(bytes, type, format, fd_table) ->
Value | Error`, with the same format-compatibility rule as the encoder. -/
def decode (bytes : List Nat) (t : Signature) (f : Format) (fds : List Nat)
    (lim : Limits) : Except Error Value :=
  match f with
  | .bus =>
      if containsMaybe t then .error (.IncompatibleFormat t .bus)
      else (decodeB lim .zero (bytes.length + 1) t bytes 0 fds).map Prod.fst
  | .compact => decodeC lim .zero (bytes.length + 1) t bytes 0 bytes.length fds

/-! ### Primitive lemmas: words, slices, padding -/

theorem natLE_length : ∀ w n : Nat, (natLE w n).length = w
  | 0, _ => rfl
  | w + 1, n => by simp [natLE, natLE_length w]

theorem lesToNat_natLE : ∀ w n : Nat, lesToNat (natLE w n) = n % 256 ^ w
  | 0, n => by simp [natLE, lesToNat]; omega
  | w + 1, n => by
      rw [natLE, lesToNat, lesToNat_natLE w, Nat.mod_mod_of_dvd n dvd_rfl,
        pow_succ, mul_comm (256 ^ w) 256, Nat.mod_mul]

theorem lesToNat_natLE_self (w n : Nat) (h : n < 256 ^ w) :
    lesToNat (natLE w n) = n := by
  rw [lesToNat_natLE, Nat.mod_eq_of_lt h]

theorem natLE_lt : ∀ w n : Nat, ∀ b ∈ natLE w n, b < 256
  | w + 1, n, b, hb => by
      rw [natLE] at hb
      rcases List.mem_cons.1 hb with h | h
      · subst h; exact Nat.mod_lt _ (by omega)
      · exact natLE_lt w _ b h

theorem getElem?_append_mid (pre mid suf : List Nat) (i : Nat) (h : i < mid.length) :
    (pre ++ mid ++ suf)[pre.length + i]? = mid[i]? := by
  rw [List.append_assoc, List.getElem?_append_right (by omega),
    Nat.add_sub_cancel_left, List.getElem?_append_left h]

theorem readByteAt_mid (pre mid suf : List Nat) (i b : Nat) (h : mid[i]? = some b) :
    readByteAt (pre ++ mid ++ suf) (pre.length + i) = .ok b := by
  have hi : i < mid.length := by
    by_contra hc
    rw [List.getElem?_eq_none (by omega)] at h
    exact Option.noConfusion h
  rw [readByteAt, getElem?_append_mid pre mid suf i hi, h]

theorem readSlice_mid (pre mid suf : List Nat) (i n : Nat) (h : i + n ≤ mid.length) :
    readSlice (pre ++ mid ++ suf) (pre.length + i) n = (mid.drop i).take n := by
  rw [readSlice, List.append_assoc, List.drop_append, List.drop_append_eq_append_drop]
  rw [List.take_append_of_le_length]
  simp
  omega

theorem readSlice_mid_exact (pre mid suf : List Nat) :
    readSlice (pre ++ mid ++ suf) pre.length mid.length = mid := by
  have := readSlice_mid pre mid suf 0 mid.length (by omega)
  simpa using this

theorem readWord_mid (pre suf : List Nat) (w n : Nat) (hn : n < 256 ^ w) :
    readWord (pre ++ natLE w n ++ suf) pre.length w = .ok n := by
  rw [readWord, if_pos (by simp [natLE_length])]
  have h := readSlice_mid_exact pre (natLE w n) suf
  rw [natLE_length] at h
  rw [h, lesToNat_natLE_self w n hn]

theorem checkZeros_of_all_zero (bytes : List Nat) :
    ∀ (n : Nat) (pos : Nat), (∀ i, i < n → bytes[pos + i]? = some 0) →
      checkZeros bytes pos n = .ok ()
  | 0, pos, _ => rfl
  | n + 1, pos, h => by
      have h0 : bytes[pos]? = some 0 := by simpa using h 0 (by omega)
      rw [checkZeros, readByteAt, h0]
      exact checkZeros_of_all_zero bytes n (pos + 1)
        (fun i hi => by
          have := h (i + 1) (by omega)
          simpa [Nat.add_assoc, Nat.add_comm 1 i] using this)

theorem checkZeros_replicate_mid (pre suf : List Nat) (p : Nat) :
    checkZeros (pre ++ List.replicate p 0 ++ suf) pre.length p = .ok () := by
  apply checkZeros_of_all_zero
  intro i hi
  rw [getElem?_append_mid pre _ suf i (by simpa using hi)]
  simp [List.getElem?_replicate, hi]

theorem padLen_lt (pos a : Nat) (h : 0 < a) : padLen pos a < a :=
  Nat.mod_lt _ h

theorem alignUp_mod (pos a : Nat) (h : 0 < a) : alignUp pos a % a = 0 := by
  rw [alignUp, padLen]
  rcases Nat.eq_zero_or_pos (pos % a) with h0 | h0
  · rw [h0, Nat.sub_zero, Nat.mod_self, Nat.add_zero]
    exact h0
  · have h1 : pos % a < a := Nat.mod_lt _ h
    have h2 : (a - pos % a) % a = a - pos % a := Nat.mod_eq_of_lt (by omega)
    rw [h2]
    have h3 : pos + (a - pos % a) = a * (pos / a) + a := by
      have h4 := Nat.div_add_mod pos a
      omega
    rw [h3, ← Nat.mul_succ, Nat.mul_mod_right]

theorem alignOf_pos (f : Format) : ∀ t : Signature, 0 < alignOf f t
  | .byte | .int16 | .uint16 | .int32 | .uint32 | .int64 | .uint64 | .double
  | .signature | .unixFd => by cases f <;> decide
  | .struct _ | .dictEntry _ _ => by cases f <;> norm_num [alignOf]
  | .boolean | .string | .objectPath | .variant => by cases f <;> decide
  | .array e => by
      cases f
      · norm_num [alignOf]
      · simpa [alignOf] using alignOf_pos .compact e
  | .maybe e => by
      cases f
      · norm_num [alignOf]
      · simpa [alignOf] using alignOf_pos .compact e

theorem alignOf_dvd_8 (f : Format) : ∀ t : Signature, alignOf f t ∣ 8
  | .byte | .int16 | .uint16 | .int32 | .uint32 | .int64 | .uint64 | .double
  | .signature | .unixFd => by cases f <;> decide
  | .struct _ | .dictEntry _ _ => by cases f <;> norm_num [alignOf]
  | .boolean | .string | .objectPath | .variant => by
      cases f <;> decide
  | .array e => by
      cases f
      · norm_num [alignOf]
      · simpa [alignOf] using alignOf_dvd_8 .compact e
  | .maybe e => by
      cases f
      · norm_num [alignOf]
      · simpa [alignOf] using alignOf_dvd_8 .compact e

theorem padLen_add_multiple (q e a : Nat) (hq : a ∣ q) :
    padLen (q + e) a = padLen e a := by
  obtain ⟨c, rfl⟩ := hq
  rw [padLen, padLen, Nat.mul_add_mod]

theorem exceptBind_ok {ε α β : Type} {m : Except ε α} {k : α → Except ε β} {r : β} :
    m.bind k = .ok r ↔ ∃ a, m = .ok a ∧ k a = .ok r := by
  cases m <;> simp [Except.bind]

/-! ### Decoder fuel requirements

The decoders thread a fuel argument that only decreases through variants
and bus array items.  `needB`/`needC` compute, per value, a sufficient fuel
for decoding its encoding; they are bounded by the encoding's length. -/

mutual

/-- Sufficient decoder fuel for a value in the bus format. -/
def needB : Value → Nat
  | .variant _ v2 => needB v2 + 1
  | .array vs => needItemsB vs
  | .struct vs => needFieldsB vs
  | .dictEntry k v => max (needB k) (needB v)
  | _ => 1

/-- Sufficient fuel for bus struct fields (all decoded at the same fuel). -/
def needFieldsB : List Value → Nat
  | [] => 1
  | v :: vs => max (needB v) (needFieldsB vs)

/-- Sufficient fuel for bus array items (one fuel burned per item). -/
def needItemsB : List Value → Nat
  | [] => 1
  | v :: vs => max (needB v) (needItemsB vs + 1)

end

mutual

/-- Sufficient decoder fuel for a value in the compact format. -/
def needC : Value → Nat
  | .variant _ v2 => needC v2 + 1
  | .array vs => needListC vs
  | .struct vs => needListC vs
  | .dictEntry k v => max (needC k) (needC v)
  | .maybe none => 1
  | .maybe (some x) => needC x
  | _ => 1

/-- Sufficient fuel for a list of compact children (all at the same
fuel). -/
def needListC : List Value → Nat
  | [] => 1
  | v :: vs => max (needC v) (needListC vs)

end

mutual

theorem needB_pos : ∀ v : Value, 1 ≤ needB v
  | .byte _ | .boolean _ | .int16 _ | .uint16 _ | .int32 _ | .uint32 _
  | .int64 _ | .uint64 _ | .double _ | .string _ | .objectPath _
  | .signature _ | .unixFd _ | .maybe _ => by simp [needB]
  | .variant _ v2 => by simp [needB]
  | .array vs => by
      have := needItemsB_pos vs
      simpa [needB]
  | .struct vs => by
      have := needFieldsB_pos vs
      simpa [needB]
  | .dictEntry k v => by
      have := needB_pos k
      simp only [needB, le_max_iff]
      omega

theorem needFieldsB_pos : ∀ vs : List Value, 1 ≤ needFieldsB vs
  | [] => by simp [needFieldsB]
  | v :: vs => by
      have := needFieldsB_pos vs
      simp only [needFieldsB, le_max_iff]
      omega

theorem needItemsB_pos : ∀ vs : List Value, 1 ≤ needItemsB vs
  | [] => by simp [needItemsB]
  | v :: vs => by
      have := needItemsB_pos vs
      simp only [needItemsB, le_max_iff]
      omega

end

mutual

theorem needC_pos : ∀ v : Value, 1 ≤ needC v
  | .byte _ | .boolean _ | .int16 _ | .uint16 _ | .int32 _ | .uint32 _
  | .int64 _ | .uint64 _ | .double _ | .string _ | .objectPath _
  | .signature _ | .unixFd _ => by simp [needC]
  | .variant _ v2 => by simp [needC]
  | .maybe none => by simp [needC]
  | .maybe (some x) => by
      have := needC_pos x
      simpa [needC]
  | .array vs => by
      have := needListC_pos vs
      simpa [needC]
  | .struct vs => by
      have := needListC_pos vs
      simpa [needC]
  | .dictEntry k v => by
      have := needC_pos k
      simp only [needC, le_max_iff]
      omega

theorem needListC_pos : ∀ vs : List Value, 1 ≤ needListC vs
  | [] => by simp [needListC]
  | v :: vs => by
      have := needListC_pos vs
      simp only [needListC, le_max_iff]
      omega

end

/-! ### Signature text round-trip -/

theorem bindOk {ε α β : Type} (a : α) (k : α → Except ε β) :
    (Except.ok a >>= k) = k a := rfl

theorem sigText_len_pos (t : Signature) : 1 ≤ (sigText t).length := by
  cases t <;> simp [sigText]

theorem sigText_head (t : Signature) : ∃ c tl, sigText t = c :: tl ∧ ¬ c = 41 := by
  cases t <;> exact ⟨_, _, rfl, by decide⟩

mutual

theorem parseOne_sigText : ∀ (t : Signature), validSig t = true →
    ∀ (rest : List Nat) (fuel : Nat), 2 * (sigText t).length ≤ fuel →
      parseOne fuel (sigText t ++ rest) = .ok (t, rest)
  | .byte, _, rest, fuel, hf => by
      obtain ⟨f, rfl⟩ : ∃ f, fuel = f + 1 := ⟨fuel - 1, by simp [sigText] at hf; omega⟩
      simp [parseOne, sigText]
  | .boolean, _, rest, fuel, hf => by
      obtain ⟨f, rfl⟩ : ∃ f, fuel = f + 1 := ⟨fuel - 1, by simp [sigText] at hf; omega⟩
      simp [parseOne, sigText]
  | .int16, _, rest, fuel, hf => by
      obtain ⟨f, rfl⟩ : ∃ f, fuel = f + 1 := ⟨fuel - 1, by simp [sigText] at hf; omega⟩
      simp [parseOne, sigText]
  | .uint16, _, rest, fuel, hf => by
      obtain ⟨f, rfl⟩ : ∃ f, fuel = f + 1 := ⟨fuel - 1, by simp [sigText] at hf; omega⟩
      simp [parseOne, sigText]
  | .int32, _, rest, fuel, hf => by
      obtain ⟨f, rfl⟩ : ∃ f, fuel = f + 1 := ⟨fuel - 1, by simp [sigText] at hf; omega⟩
      simp [parseOne, sigText]
  | .uint32, _, rest, fuel, hf => by
      obtain ⟨f, rfl⟩ : ∃ f, fuel = f + 1 := ⟨fuel - 1, by simp [sigText] at hf; omega⟩
      simp [parseOne, sigText]
  | .int64, _, rest, fuel, hf => by
      obtain ⟨f, rfl⟩ : ∃ f, fuel = f + 1 := ⟨fuel - 1, by simp [sigText] at hf; omega⟩
      simp [parseOne, sigText]
  | .uint64, _, rest, fuel, hf => by
      obtain ⟨f, rfl⟩ : ∃ f, fuel = f + 1 := ⟨fuel - 1, by simp [sigText] at hf; omega⟩
      simp [parseOne, sigText]
  | .double, _, rest, fuel, hf => by
      obtain ⟨f, rfl⟩ : ∃ f, fuel = f + 1 := ⟨fuel - 1, by simp [sigText] at hf; omega⟩
      simp [parseOne, sigText]
  | .string, _, rest, fuel, hf => by
      obtain ⟨f, rfl⟩ : ∃ f, fuel = f + 1 := ⟨fuel - 1, by simp [sigText] at hf; omega⟩
      simp [parseOne, sigText]
  | .objectPath, _, rest, fuel, hf => by
      obtain ⟨f, rfl⟩ : ∃ f, fuel = f + 1 := ⟨fuel - 1, by simp [sigText] at hf; omega⟩
      simp [parseOne, sigText]
  | .signature, _, rest, fuel, hf => by
      obtain ⟨f, rfl⟩ : ∃ f, fuel = f + 1 := ⟨fuel - 1, by simp [sigText] at hf; omega⟩
      simp [parseOne, sigText]
  | .unixFd, _, rest, fuel, hf => by
      obtain ⟨f, rfl⟩ : ∃ f, fuel = f + 1 := ⟨fuel - 1, by simp [sigText] at hf; omega⟩
      simp [parseOne, sigText]
  | .variant, _, rest, fuel, hf => by
      obtain ⟨f, rfl⟩ : ∃ f, fuel = f + 1 := ⟨fuel - 1, by simp [sigText] at hf; omega⟩
      simp [parseOne, sigText]
  | .array e, hv, rest, fuel, hf => by
      obtain ⟨f, rfl⟩ : ∃ f, fuel = f + 1 := ⟨fuel - 1, by simp [sigText] at hf; omega⟩
      have he : validSig e = true := by simpa [validSig] using hv
      have h1 : 2 * (sigText e).length ≤ f := by simp [sigText] at hf; omega
      simp [parseOne, sigText, parseOne_sigText e he rest f h1, bindOk]
  | .maybe e, hv, rest, fuel, hf => by
      obtain ⟨f, rfl⟩ : ∃ f, fuel = f + 1 := ⟨fuel - 1, by simp [sigText] at hf; omega⟩
      have he : validSig e = true := by simpa [validSig] using hv
      have h1 : 2 * (sigText e).length ≤ f := by simp [sigText] at hf; omega
      simp [parseOne, sigText, parseOne_sigText e he rest f h1, bindOk]
  | .struct fs, hv, rest, fuel, hf => by
      obtain ⟨f, rfl⟩ : ∃ f, fuel = f + 1 := ⟨fuel - 1, by simp [sigText] at hf; omega⟩
      have hne : fs.isEmpty = false := by
        simp [validSig] at hv
        simpa using hv.1
      have hvl : validSigList fs = true := by
        simp [validSig] at hv
        exact hv.2
      have h1 : 2 * (sigTextList fs).length + 1 ≤ f := by simp [sigText] at hf; omega
      have hp := parseFields_sigText fs hvl rest f h1
      simp [parseOne, sigText, List.append_assoc, hp, hne, bindOk]
  | .dictEntry k v, hv, rest, fuel, hf => by
      obtain ⟨f, rfl⟩ : ∃ f, fuel = f + 1 := ⟨fuel - 1, by simp [sigText] at hf; omega⟩
      have hb : isBasic k = true := by
        simp [validSig] at hv
        exact hv.1
      have hk : validSig k = true := by
        simp [validSig] at hv
        exact hv.2.1
      have hvv : validSig v = true := by
        simp [validSig] at hv
        exact hv.2.2
      have h1 : 2 * (sigText k).length ≤ f := by
        have := sigText_len_pos v
        simp [sigText] at hf
        omega
      have h2 : 2 * (sigText v).length ≤ f := by
        have := sigText_len_pos k
        simp [sigText] at hf
        omega
      have hpk := parseOne_sigText k hk (sigText v ++ (125 :: rest)) f h1
      have hpv := parseOne_sigText v hvv (125 :: rest) f h2
      simp [parseOne, sigText, List.append_assoc, hpk, hpv, hb, bindOk]

theorem parseFields_sigText : ∀ (ts : List Signature), validSigList ts = true →
    ∀ (rest : List Nat) (fuel : Nat), 2 * (sigTextList ts).length + 1 ≤ fuel →
      parseFields fuel (sigTextList ts ++ (41 :: rest)) = .ok (ts, rest)
  | [], _, rest, fuel, hf => by
      obtain ⟨f, rfl⟩ : ∃ f, fuel = f + 1 := ⟨fuel - 1, by omega⟩
      simp [sigTextList, parseFields]
  | t :: ts, hv, rest, fuel, hf => by
      obtain ⟨f, rfl⟩ : ∃ f, fuel = f + 1 := ⟨fuel - 1, by omega⟩
      have hvt : validSig t = true := by
        simp [validSigList] at hv
        exact hv.1
      have hvl : validSigList ts = true := by
        simp [validSigList] at hv
        exact hv.2
      obtain ⟨c, tl, hct, hc41⟩ := sigText_head t
      have h1 : 2 * (sigText t).length ≤ f := by simp [sigTextList] at hf; omega
      have h2 : 2 * (sigTextList ts).length + 1 ≤ f := by
        have := sigText_len_pos t
        simp [sigTextList] at hf
        omega
      have hpt := parseOne_sigText t hvt (sigTextList ts ++ (41 :: rest)) f h1
      have hpts := parseFields_sigText ts hvl rest f h2
      rw [sigTextList, List.append_assoc, hct, List.cons_append, parseFields,
        if_neg hc41, ← List.cons_append, ← hct, hpt]
      simp [hpts, bindOk]

end

theorem parseSingle_sigText (t : Signature) (hv : validSig t = true) :
    parseSingle (sigText t) = .ok t := by
  rw [parseSingle]
  have h := parseOne_sigText t hv [] (2 * (sigText t).length + 1) (by omega)
  rw [List.append_nil] at h
  rw [h]
  rfl

theorem parseMany_sigTextList : ∀ (ts : List Signature), validSigList ts = true →
    ∀ (fuel : Nat), 2 * (sigTextList ts).length + 1 ≤ fuel →
      parseMany fuel (sigTextList ts) = .ok ts
  | [], _, fuel, hf => by
      obtain ⟨f, rfl⟩ : ∃ f, fuel = f + 1 := ⟨fuel - 1, by omega⟩
      rw [sigTextList, parseMany]
  | t :: ts, hv, fuel, hf => by
      obtain ⟨f, rfl⟩ : ∃ f, fuel = f + 1 := ⟨fuel - 1, by omega⟩
      have hvt : validSig t = true := by
        simp [validSigList] at hv
        exact hv.1
      have hvl : validSigList ts = true := by
        simp [validSigList] at hv
        exact hv.2
      obtain ⟨c, tl, hct, _⟩ := sigText_head t
      have h1 : 2 * (sigText t).length ≤ f + 1 := by simp [sigTextList] at hf; omega
      have h2 : 2 * (sigTextList ts).length + 1 ≤ f := by
        have := sigText_len_pos t
        simp [sigTextList] at hf
        omega
      have hpt := parseOne_sigText t hvt (sigTextList ts) (f + 1) h1
      have hpts := parseMany_sigTextList ts hvl f h2
      rw [sigTextList, hct, List.cons_append, parseMany, ← List.cons_append, ← hct, hpt]
      · simp [hpts, bindOk]
      · simp


/-! ### Frame lemmas for the round-trip proofs -/

theorem padLen_one (pos : Nat) : padLen pos 1 = 0 := by
  simp [padLen, Nat.mod_one]

theorem alignUp_one (pos : Nat) : alignUp pos 1 = pos := by
  simp [alignUp, padLen_one]

theorem readByteAt_pre (pre : List Nat) (b : Nat) (rest : List Nat) :
    readByteAt (pre ++ b :: rest) pre.length = .ok b := by
  rw [readByteAt, List.getElem?_append_right (le_refl _), Nat.sub_self]
  simp

theorem readSlice_pre (pre mid rest : List Nat) :
    readSlice (pre ++ (mid ++ rest)) pre.length mid.length = mid := by
  rw [readSlice, List.drop_left, List.take_left]

theorem readWord_pre (pre : List Nat) (w m : Nat) (rest : List Nat) (hm : m < 256 ^ w) :
    readWord (pre ++ (natLE w m ++ rest)) pre.length w = .ok m := by
  rw [readWord, if_pos (by simp [natLE_length])]
  have h := readSlice_pre pre (natLE w m) rest
  rw [natLE_length] at h
  rw [h, lesToNat_natLE_self w m hm]

theorem checkZeros_pre (pre : List Nat) (p : Nat) (rest : List Nat) :
    checkZeros (pre ++ (List.replicate p 0 ++ rest)) pre.length p = .ok () := by
  apply checkZeros_of_all_zero
  intro i hi
  rw [List.getElem?_append_right (by omega), Nat.add_sub_cancel_left,
    List.getElem?_append_left (by simpa using hi)]
  simp [List.getElem?_replicate, hi]

theorem toTwos_lt (w : Nat) (i : Int) : toTwos w i < 2 ^ w := by
  rw [toTwos]
  have h2 : (0:Int) < (2:Int) ^ w := by positivity
  have ha := Int.emod_lt_of_pos i h2
  have hb := Int.emod_nonneg i h2.ne'
  have hM : (2:Int) ^ w = ((2 ^ w : Nat) : Int) := by push_cast; ring
  rw [hM] at ha hb ⊢
  omega

theorem fromTwos_toTwos (w : Nat) (i : Int) (hw : 0 < w)
    (h1 : -(2 ^ (w - 1)) ≤ i) (h2 : i < 2 ^ (w - 1)) :
    fromTwos w (toTwos w i) = i := by
  have e1 : (2:Int) ^ w = ((2 ^ w : Nat) : Int) := by push_cast; ring
  have e2 : (2:Int) ^ (w - 1) = ((2 ^ (w - 1) : Nat) : Int) := by push_cast; ring
  have hww : (2:Nat) ^ w = 2 ^ (w - 1) * 2 := by
    rw [← pow_succ]
    congr 1
    omega
  rw [e2] at h1 h2
  rw [fromTwos, toTwos, e1]
  rcases le_or_lt 0 i with hpos | hneg
  · have he : i % (((2 ^ w : Nat) : Int)) = i := Int.emod_eq_of_lt hpos (by omega)
    rw [he]
    rw [if_pos (by omega)]
    omega
  · have hlt : (0:Int) ≤ i + ((2 ^ w : Nat) : Int) := by omega
    have h3 := Int.add_mul_emod_self_left (a := i) (b := ((2 ^ w : Nat) : Int)) (c := 1)
    rw [mul_one] at h3
    have he : i % (((2 ^ w : Nat) : Int)) = i + ((2 ^ w : Nat) : Int) := by
      rw [← h3, Int.emod_eq_of_lt hlt (by omega)]
    rw [he]
    rw [if_neg (by omega)]
    omega



/-! ### Bus-format round trip

The three mutually recursive statements below tie an encoder success to the
corresponding decoder run on the produced bytes, embedded at any buffer
position and with any extension of the fd table. -/


theorem doBindOk {ε α β : Type} {m : Except ε α} {k : α → Except ε β} {r : β} :
    (m >>= k) = .ok r ↔ ∃ a, m = .ok a ∧ k a = .ok r := by
  cases m <;> simp [Bind.bind, Except.bind]

theorem checkZeros_at (pre : List Nat) (i p k : Nat) (rest : List Nat)
    (hi : i = pre.length) (hp : p = k) :
    checkZeros (pre ++ (List.replicate k 0 ++ rest)) i p = .ok () := by
  subst hi hp; exact checkZeros_pre pre p rest

theorem readWord_at (pre : List Nat) (i w m : Nat) (rest : List Nat)
    (hi : i = pre.length) (hm : m < 256 ^ w) :
    readWord (pre ++ (natLE w m ++ rest)) i w = .ok m := by
  subst hi; exact readWord_pre pre w m rest hm

theorem readByteAt_at (pre : List Nat) (i b : Nat) (rest : List Nat)
    (hi : i = pre.length) :
    readByteAt (pre ++ b :: rest) i = .ok b := by
  subst hi; exact readByteAt_pre pre b rest

theorem readSliceAt (pre mid rest : List Nat) (i n : Nat)
    (hi : i = pre.length) (hn : n = mid.length) :
    readSlice (pre ++ (mid ++ rest)) i n = mid := by
  subst hi hn; exact readSlice_pre pre mid rest

mutual

theorem encodeB_rt : ∀ (v : Value) (lim : Limits) (d : Depths) (t : Signature) (pos : Nat)
    (fds body pads fds2 : List Nat),
    encodeB lim d t v pos fds = .ok (body, pads, fds2) →
    (fds <+: fds2) ∧ 1 ≤ body.length ∧ needB v ≤ body.length + 1 ∧
    (∀ (fdsF pre suf : List Nat) (fuel : Nat), fds2 <+: fdsF → pre.length = pos →
      needB v ≤ fuel →
      decodeB lim d fuel t (pre ++ body ++ suf) pos fdsF = .ok (v, pos + body.length))
  | .byte n => by
      intro lim d t pos fds body pads fds2 h
      cases t
      case byte =>
        replace h : (if n < 256 then
            (.ok ([n], [], fds) : Except Error (List Nat × List Nat × List Nat))
          else .error .IncorrectType) = .ok (body, pads, fds2) := h
        split at h
        case isFalse => exact Except.noConfusion h
        case isTrue hn =>
        simp only [Except.ok.injEq, Prod.mk.injEq] at h
        obtain ⟨rfl, rfl, rfl⟩ := h
        refine ⟨List.prefix_refl _, by simp, by simp [needB], ?_⟩
        intro fdsF pre suf fuel hf hpre hfuel
        subst hpre
        obtain ⟨f, rfl⟩ : ∃ f, fuel = f + 1 := ⟨fuel - 1, by simp [needB] at hfuel; omega⟩
        rw [List.append_assoc]
        simp only [decodeB]
        rw [show alignOf .bus .byte = 1 from rfl, padLen_one, alignUp_one]
        rw [show checkZeros (pre ++ ([n] ++ suf)) pre.length 0 = .ok () from rfl]
        rw [show ([n] ++ suf : List Nat) = n :: suf from rfl]
        simp only [bindOk]
        rw [readByteAt_pre pre n suf]
        simp [bindOk]
      all_goals exact Except.noConfusion h
  | .boolean b => by
      intro lim d t pos fds body pads fds2 h
      cases t
      case boolean =>
        replace h : ((.ok (List.replicate (padLen pos 4) 0 ++ natLE 4 (if b then 1 else 0),
              padPositions pos (padLen pos 4), fds)) : Except Error (List Nat × List Nat × List Nat)) = .ok (body, pads, fds2) := h
        simp only [Except.ok.injEq, Prod.mk.injEq] at h
        obtain ⟨rfl, rfl, rfl⟩ := h
        refine ⟨List.prefix_refl _, by simp [natLE_length], by simp [needB], ?_⟩
        intro fdsF pre suf fuel hf hpre hfuel
        subst hpre
        obtain ⟨f, rfl⟩ : ∃ f, fuel = f + 1 := ⟨fuel - 1, by simp [needB] at hfuel; omega⟩
        rw [List.append_assoc, List.append_assoc]
        simp only [decodeB]
        rw [show alignOf .bus .boolean = 4 from rfl]
        rw [checkZeros_pre pre (padLen pre.length 4) (natLE 4 (if b then 1 else 0) ++ suf)]
        simp only [bindOk]
        rw [show alignUp pre.length 4 = (pre ++ List.replicate (padLen pre.length 4) 0).length from by simp [alignUp]]
        rw [← List.append_assoc pre]
        rw [readWord_pre (pre ++ List.replicate (padLen pre.length 4) 0) 4 (if b then 1 else 0) suf (by cases b <;> norm_num)]
        simp only [bindOk]
        cases b <;> simp [natLE_length, alignUp, Nat.add_assoc]
      all_goals exact Except.noConfusion h
  | .int16 i => by
      intro lim d t pos fds body pads fds2 h
      cases t
      case int16 =>
        replace h : (if -(2 ^ 15) ≤ i ∧ i < 2 ^ 15 then
            (.ok (List.replicate (padLen pos 2) 0 ++ natLE 2 (toTwos 16 i),
              padPositions pos (padLen pos 2), fds) : Except Error (List Nat × List Nat × List Nat))
          else .error .IncorrectType) = .ok (body, pads, fds2) := h
        split at h
        case isFalse => exact Except.noConfusion h
        case isTrue hn =>
        simp only [Except.ok.injEq, Prod.mk.injEq] at h
        obtain ⟨rfl, rfl, rfl⟩ := h
        refine ⟨List.prefix_refl _, by simp [natLE_length], by simp [needB], ?_⟩
        intro fdsF pre suf fuel hf hpre hfuel
        subst hpre
        obtain ⟨f, rfl⟩ : ∃ f, fuel = f + 1 := ⟨fuel - 1, by simp [needB] at hfuel; omega⟩
        rw [List.append_assoc, List.append_assoc]
        simp only [decodeB]
        rw [show alignOf .bus .int16 = 2 from rfl]
        rw [checkZeros_pre pre (padLen pre.length 2) (natLE 2 (toTwos 16 i) ++ suf)]
        simp only [bindOk]
        rw [show alignUp pre.length 2 = (pre ++ List.replicate (padLen pre.length 2) 0).length from by simp [alignUp]]
        rw [← List.append_assoc pre]
        rw [readWord_pre (pre ++ List.replicate (padLen pre.length 2) 0) 2 (toTwos 16 i) suf (by have := toTwos_lt 16 i; norm_num at this ⊢; omega)]
        simp only [bindOk]
        rw [fromTwos_toTwos 16 i (by norm_num) (by simpa using hn.1) (by simpa using hn.2)]
        simp [natLE_length, alignUp, Nat.add_assoc]
      all_goals exact Except.noConfusion h
  | .uint16 m => by
      intro lim d t pos fds body pads fds2 h
      cases t
      case uint16 =>
        replace h : (if m < 2 ^ 16 then
            (.ok (List.replicate (padLen pos 2) 0 ++ natLE 2 m,
              padPositions pos (padLen pos 2), fds) : Except Error (List Nat × List Nat × List Nat))
          else .error .IncorrectType) = .ok (body, pads, fds2) := h
        split at h
        case isFalse => exact Except.noConfusion h
        case isTrue hn =>
        simp only [Except.ok.injEq, Prod.mk.injEq] at h
        obtain ⟨rfl, rfl, rfl⟩ := h
        refine ⟨List.prefix_refl _, by simp [natLE_length], by simp [needB], ?_⟩
        intro fdsF pre suf fuel hf hpre hfuel
        subst hpre
        obtain ⟨f, rfl⟩ : ∃ f, fuel = f + 1 := ⟨fuel - 1, by simp [needB] at hfuel; omega⟩
        rw [List.append_assoc, List.append_assoc]
        simp only [decodeB]
        rw [show alignOf .bus .uint16 = 2 from rfl]
        rw [checkZeros_pre pre (padLen pre.length 2) (natLE 2 m ++ suf)]
        simp only [bindOk]
        rw [show alignUp pre.length 2 = (pre ++ List.replicate (padLen pre.length 2) 0).length from by simp [alignUp]]
        rw [← List.append_assoc pre]
        rw [readWord_pre (pre ++ List.replicate (padLen pre.length 2) 0) 2 m suf (by norm_num at hn ⊢; omega)]
        simp only [bindOk]
        simp [natLE_length, alignUp, Nat.add_assoc]
      all_goals exact Except.noConfusion h
  | .int32 i => by
      intro lim d t pos fds body pads fds2 h
      cases t
      case int32 =>
        replace h : (if -(2 ^ 31) ≤ i ∧ i < 2 ^ 31 then
            (.ok (List.replicate (padLen pos 4) 0 ++ natLE 4 (toTwos 32 i),
              padPositions pos (padLen pos 4), fds) : Except Error (List Nat × List Nat × List Nat))
          else .error .IncorrectType) = .ok (body, pads, fds2) := h
        split at h
        case isFalse => exact Except.noConfusion h
        case isTrue hn =>
        simp only [Except.ok.injEq, Prod.mk.injEq] at h
        obtain ⟨rfl, rfl, rfl⟩ := h
        refine ⟨List.prefix_refl _, by simp [natLE_length], by simp [needB], ?_⟩
        intro fdsF pre suf fuel hf hpre hfuel
        subst hpre
        obtain ⟨f, rfl⟩ : ∃ f, fuel = f + 1 := ⟨fuel - 1, by simp [needB] at hfuel; omega⟩
        rw [List.append_assoc, List.append_assoc]
        simp only [decodeB]
        rw [show alignOf .bus .int32 = 4 from rfl]
        rw [checkZeros_pre pre (padLen pre.length 4) (natLE 4 (toTwos 32 i) ++ suf)]
        simp only [bindOk]
        rw [show alignUp pre.length 4 = (pre ++ List.replicate (padLen pre.length 4) 0).length from by simp [alignUp]]
        rw [← List.append_assoc pre]
        rw [readWord_pre (pre ++ List.replicate (padLen pre.length 4) 0) 4 (toTwos 32 i) suf (by have := toTwos_lt 32 i; norm_num at this ⊢; omega)]
        simp only [bindOk]
        rw [fromTwos_toTwos 32 i (by norm_num) (by simpa using hn.1) (by simpa using hn.2)]
        simp [natLE_length, alignUp, Nat.add_assoc]
      all_goals exact Except.noConfusion h
  | .uint32 m => by
      intro lim d t pos fds body pads fds2 h
      cases t
      case uint32 =>
        replace h : (if m < 2 ^ 32 then
            (.ok (List.replicate (padLen pos 4) 0 ++ natLE 4 m,
              padPositions pos (padLen pos 4), fds) : Except Error (List Nat × List Nat × List Nat))
          else .error .IncorrectType) = .ok (body, pads, fds2) := h
        split at h
        case isFalse => exact Except.noConfusion h
        case isTrue hn =>
        simp only [Except.ok.injEq, Prod.mk.injEq] at h
        obtain ⟨rfl, rfl, rfl⟩ := h
        refine ⟨List.prefix_refl _, by simp [natLE_length], by simp [needB], ?_⟩
        intro fdsF pre suf fuel hf hpre hfuel
        subst hpre
        obtain ⟨f, rfl⟩ : ∃ f, fuel = f + 1 := ⟨fuel - 1, by simp [needB] at hfuel; omega⟩
        rw [List.append_assoc, List.append_assoc]
        simp only [decodeB]
        rw [show alignOf .bus .uint32 = 4 from rfl]
        rw [checkZeros_pre pre (padLen pre.length 4) (natLE 4 m ++ suf)]
        simp only [bindOk]
        rw [show alignUp pre.length 4 = (pre ++ List.replicate (padLen pre.length 4) 0).length from by simp [alignUp]]
        rw [← List.append_assoc pre]
        rw [readWord_pre (pre ++ List.replicate (padLen pre.length 4) 0) 4 m suf (by norm_num at hn ⊢; omega)]
        simp only [bindOk]
        simp [natLE_length, alignUp, Nat.add_assoc]
      all_goals exact Except.noConfusion h
  | .int64 i => by
      intro lim d t pos fds body pads fds2 h
      cases t
      case int64 =>
        replace h : (if -(2 ^ 63) ≤ i ∧ i < 2 ^ 63 then
            (.ok (List.replicate (padLen pos 8) 0 ++ natLE 8 (toTwos 64 i),
              padPositions pos (padLen pos 8), fds) : Except Error (List Nat × List Nat × List Nat))
          else .error .IncorrectType) = .ok (body, pads, fds2) := h
        split at h
        case isFalse => exact Except.noConfusion h
        case isTrue hn =>
        simp only [Except.ok.injEq, Prod.mk.injEq] at h
        obtain ⟨rfl, rfl, rfl⟩ := h
        refine ⟨List.prefix_refl _, by simp [natLE_length], by simp [needB], ?_⟩
        intro fdsF pre suf fuel hf hpre hfuel
        subst hpre
        obtain ⟨f, rfl⟩ : ∃ f, fuel = f + 1 := ⟨fuel - 1, by simp [needB] at hfuel; omega⟩
        rw [List.append_assoc, List.append_assoc]
        simp only [decodeB]
        rw [show alignOf .bus .int64 = 8 from rfl]
        rw [checkZeros_pre pre (padLen pre.length 8) (natLE 8 (toTwos 64 i) ++ suf)]
        simp only [bindOk]
        rw [show alignUp pre.length 8 = (pre ++ List.replicate (padLen pre.length 8) 0).length from by simp [alignUp]]
        rw [← List.append_assoc pre]
        rw [readWord_pre (pre ++ List.replicate (padLen pre.length 8) 0) 8 (toTwos 64 i) suf (by have := toTwos_lt 64 i; norm_num at this ⊢; omega)]
        simp only [bindOk]
        rw [fromTwos_toTwos 64 i (by norm_num) (by simpa using hn.1) (by simpa using hn.2)]
        simp [natLE_length, alignUp, Nat.add_assoc]
      all_goals exact Except.noConfusion h
  | .uint64 m => by
      intro lim d t pos fds body pads fds2 h
      cases t
      case uint64 =>
        replace h : (if m < 2 ^ 64 then
            (.ok (List.replicate (padLen pos 8) 0 ++ natLE 8 m,
              padPositions pos (padLen pos 8), fds) : Except Error (List Nat × List Nat × List Nat))
          else .error .IncorrectType) = .ok (body, pads, fds2) := h
        split at h
        case isFalse => exact Except.noConfusion h
        case isTrue hn =>
        simp only [Except.ok.injEq, Prod.mk.injEq] at h
        obtain ⟨rfl, rfl, rfl⟩ := h
        refine ⟨List.prefix_refl _, by simp [natLE_length], by simp [needB], ?_⟩
        intro fdsF pre suf fuel hf hpre hfuel
        subst hpre
        obtain ⟨f, rfl⟩ : ∃ f, fuel = f + 1 := ⟨fuel - 1, by simp [needB] at hfuel; omega⟩
        rw [List.append_assoc, List.append_assoc]
        simp only [decodeB]
        rw [show alignOf .bus .uint64 = 8 from rfl]
        rw [checkZeros_pre pre (padLen pre.length 8) (natLE 8 m ++ suf)]
        simp only [bindOk]
        rw [show alignUp pre.length 8 = (pre ++ List.replicate (padLen pre.length 8) 0).length from by simp [alignUp]]
        rw [← List.append_assoc pre]
        rw [readWord_pre (pre ++ List.replicate (padLen pre.length 8) 0) 8 m suf (by norm_num at hn ⊢; omega)]
        simp only [bindOk]
        simp [natLE_length, alignUp, Nat.add_assoc]
      all_goals exact Except.noConfusion h
  | .double m => by
      intro lim d t pos fds body pads fds2 h
      cases t
      case double =>
        replace h : (if m < 2 ^ 64 then
            (.ok (List.replicate (padLen pos 8) 0 ++ natLE 8 m,
              padPositions pos (padLen pos 8), fds) : Except Error (List Nat × List Nat × List Nat))
          else .error .IncorrectType) = .ok (body, pads, fds2) := h
        split at h
        case isFalse => exact Except.noConfusion h
        case isTrue hn =>
        simp only [Except.ok.injEq, Prod.mk.injEq] at h
        obtain ⟨rfl, rfl, rfl⟩ := h
        refine ⟨List.prefix_refl _, by simp [natLE_length], by simp [needB], ?_⟩
        intro fdsF pre suf fuel hf hpre hfuel
        subst hpre
        obtain ⟨f, rfl⟩ : ∃ f, fuel = f + 1 := ⟨fuel - 1, by simp [needB] at hfuel; omega⟩
        rw [List.append_assoc, List.append_assoc]
        simp only [decodeB]
        rw [show alignOf .bus .double = 8 from rfl]
        rw [checkZeros_pre pre (padLen pre.length 8) (natLE 8 m ++ suf)]
        simp only [bindOk]
        rw [show alignUp pre.length 8 = (pre ++ List.replicate (padLen pre.length 8) 0).length from by simp [alignUp]]
        rw [← List.append_assoc pre]
        rw [readWord_pre (pre ++ List.replicate (padLen pre.length 8) 0) 8 m suf (by norm_num at hn ⊢; omega)]
        simp only [bindOk]
        simp [natLE_length, alignUp, Nat.add_assoc]
      all_goals exact Except.noConfusion h
  | .string s => by
      intro lim d t pos fds body pads fds2 h
      cases t
      case string =>
        replace h : ((if bytesOk s then
            match utf8Err 0 s with
            | some ue => .error (.Utf8 ue)
            | none =>
              if s.length < 2 ^ 32 then
                .ok (List.replicate (padLen pos 4) 0 ++ (natLE 4 s.length ++ (s ++ [0])),
                  padPositions pos (padLen pos 4), fds)
              else .error .OutOfBounds
          else .error .IncorrectType :
            Except Error (List Nat × List Nat × List Nat)) = .ok (body, pads, fds2)) := h
        split at h
        case isFalse => exact Except.noConfusion h
        case isTrue hbo =>
        split at h
        case h_1 => exact Except.noConfusion h
        case h_2 hu =>
        split at h
        case isFalse => exact Except.noConfusion h
        case isTrue hn =>
        simp only [Except.ok.injEq, Prod.mk.injEq] at h
        obtain ⟨rfl, rfl, rfl⟩ := h
        refine ⟨List.prefix_refl _, by simp [natLE_length]; omega, by simp [needB], ?_⟩
        intro fdsF pre suf fuel hf hpre hfuel
        subst hpre
        obtain ⟨f, rfl⟩ : ∃ f, fuel = f + 1 := ⟨fuel - 1, by simp [needB] at hfuel; omega⟩
        rw [List.append_assoc, List.append_assoc, List.append_assoc, List.append_assoc]
        simp only [decodeB]
        rw [show alignOf .bus .string = 4 from rfl]
        rw [checkZeros_pre pre (padLen pre.length 4) (natLE 4 s.length ++ (s ++ ([0] ++ suf)))]
        simp only [bindOk]
        rw [show alignUp pre.length 4 = (pre ++ List.replicate (padLen pre.length 4) 0).length from by simp [alignUp]]
        rw [← List.append_assoc pre]
        rw [readWord_pre (pre ++ List.replicate (padLen pre.length 4) 0) 4 s.length
          (s ++ ([0] ++ suf)) (by norm_num at hn ⊢; omega)]
        simp only [bindOk]
        rw [if_pos (by simp [natLE_length]; omega)]
        have e1 : (pre ++ List.replicate (padLen pre.length 4) 0).length + 4
            = ((pre ++ List.replicate (padLen pre.length 4) 0) ++ natLE 4 s.length).length := by
          simp [natLE_length]; omega
        have e2 : pre ++ List.replicate (padLen pre.length 4) 0 ++ (natLE 4 s.length ++ (s ++ ([0] ++ suf)))
            = ((pre ++ List.replicate (padLen pre.length 4) 0) ++ natLE 4 s.length) ++ (s ++ ([0] ++ suf)) := by
          simp
        rw [e1, e2, readSlice_pre _ s ([0] ++ suf)]
        have e3 : ((pre ++ List.replicate (padLen pre.length 4) 0) ++ natLE 4 s.length).length + s.length
            = (((pre ++ List.replicate (padLen pre.length 4) 0) ++ natLE 4 s.length) ++ s).length := by
          simp; omega
        have e4 : ((pre ++ List.replicate (padLen pre.length 4) 0) ++ natLE 4 s.length) ++ (s ++ ([0] ++ suf))
            = (((pre ++ List.replicate (padLen pre.length 4) 0) ++ natLE 4 s.length) ++ s) ++ (0 :: suf) := by
          simp
        rw [e3, e4, readByteAt_pre _ 0 suf]
        simp only [bindOk]
        rw [if_pos trivial, hu]
        simp [natLE_length, alignUp, Nat.add_assoc]
      all_goals exact Except.noConfusion h
  | .objectPath s => by
      intro lim d t pos fds body pads fds2 h
      cases t
      case objectPath =>
        replace h : ((if bytesOk s then
            match utf8Err 0 s with
            | some ue => .error (.Utf8 ue)
            | none =>
              if validObjectPath s then
                if s.length < 2 ^ 32 then
                  .ok (List.replicate (padLen pos 4) 0 ++ (natLE 4 s.length ++ (s ++ [0])),
                    padPositions pos (padLen pos 4), fds)
                else .error .OutOfBounds
              else .error .InvalidObjectPath
          else .error .IncorrectType :
            Except Error (List Nat × List Nat × List Nat)) = .ok (body, pads, fds2)) := h
        split at h
        case isFalse => exact Except.noConfusion h
        case isTrue hbo =>
        split at h
        case h_1 => exact Except.noConfusion h
        case h_2 hu =>
        split at h
        case isFalse => exact Except.noConfusion h
        case isTrue hvp =>
        split at h
        case isFalse => exact Except.noConfusion h
        case isTrue hn =>
        simp only [Except.ok.injEq, Prod.mk.injEq] at h
        obtain ⟨rfl, rfl, rfl⟩ := h
        refine ⟨List.prefix_refl _, by simp [natLE_length]; omega, by simp [needB], ?_⟩
        intro fdsF pre suf fuel hf hpre hfuel
        subst hpre
        obtain ⟨f, rfl⟩ : ∃ f, fuel = f + 1 := ⟨fuel - 1, by simp [needB] at hfuel; omega⟩
        rw [List.append_assoc, List.append_assoc, List.append_assoc, List.append_assoc]
        simp only [decodeB]
        rw [show alignOf .bus .objectPath = 4 from rfl]
        rw [checkZeros_pre pre (padLen pre.length 4) (natLE 4 s.length ++ (s ++ ([0] ++ suf)))]
        simp only [bindOk]
        rw [show alignUp pre.length 4 = (pre ++ List.replicate (padLen pre.length 4) 0).length from by simp [alignUp]]
        rw [← List.append_assoc pre]
        rw [readWord_pre (pre ++ List.replicate (padLen pre.length 4) 0) 4 s.length
          (s ++ ([0] ++ suf)) (by norm_num at hn ⊢; omega)]
        simp only [bindOk]
        rw [if_pos (by simp [natLE_length]; omega)]
        have e1 : (pre ++ List.replicate (padLen pre.length 4) 0).length + 4
            = ((pre ++ List.replicate (padLen pre.length 4) 0) ++ natLE 4 s.length).length := by
          simp [natLE_length]; omega
        have e2 : pre ++ List.replicate (padLen pre.length 4) 0 ++ (natLE 4 s.length ++ (s ++ ([0] ++ suf)))
            = ((pre ++ List.replicate (padLen pre.length 4) 0) ++ natLE 4 s.length) ++ (s ++ ([0] ++ suf)) := by
          simp
        rw [e1, e2, readSlice_pre _ s ([0] ++ suf)]
        have e3 : ((pre ++ List.replicate (padLen pre.length 4) 0) ++ natLE 4 s.length).length + s.length
            = (((pre ++ List.replicate (padLen pre.length 4) 0) ++ natLE 4 s.length) ++ s).length := by
          simp; omega
        have e4 : ((pre ++ List.replicate (padLen pre.length 4) 0) ++ natLE 4 s.length) ++ (s ++ ([0] ++ suf))
            = (((pre ++ List.replicate (padLen pre.length 4) 0) ++ natLE 4 s.length) ++ s) ++ (0 :: suf) := by
          simp
        rw [e3, e4, readByteAt_pre _ 0 suf]
        simp only [bindOk]
        rw [if_pos trivial, hu]
        rw [if_pos hvp]
        simp [natLE_length, alignUp, Nat.add_assoc]
      all_goals exact Except.noConfusion h
  | .signature ts => by
      intro lim d t pos fds body pads fds2 h
      cases t
      case signature =>
        replace h : (if validSigList ts then
            (if (sigTextList ts).length ≤ 255 then
              (.ok ((sigTextList ts).length :: (sigTextList ts ++ [0]), [], fds) :
                Except Error (List Nat × List Nat × List Nat))
            else .error .OutOfBounds)
          else .error .IncorrectType) = .ok (body, pads, fds2) := h
        split at h
        case isFalse => exact Except.noConfusion h
        case isTrue hv =>
        split at h
        case isFalse => exact Except.noConfusion h
        case isTrue hlen =>
        simp only [Except.ok.injEq, Prod.mk.injEq] at h
        obtain ⟨rfl, rfl, rfl⟩ := h
        refine ⟨List.prefix_refl _, by simp, by simp [needB], ?_⟩
        intro fdsF pre suf fuel hf hpre hfuel
        subst hpre
        obtain ⟨f, rfl⟩ : ∃ f, fuel = f + 1 := ⟨fuel - 1, by simp [needB] at hfuel; omega⟩
        rw [List.append_assoc]
        simp only [decodeB]
        rw [show alignOf .bus .signature = 1 from rfl, padLen_one, alignUp_one]
        rw [show checkZeros (pre ++ ((sigTextList ts).length :: (sigTextList ts ++ [0]) ++ suf)) pre.length 0 = .ok () from rfl]
        rw [show ((sigTextList ts).length :: (sigTextList ts ++ [0]) ++ suf : List Nat)
          = (sigTextList ts).length :: (sigTextList ts ++ ([0] ++ suf)) from by simp]
        rw [readByteAt_pre pre (sigTextList ts).length (sigTextList ts ++ ([0] ++ suf))]
        simp only [bindOk]
        rw [if_pos (by simp; omega)]
        rw [show pre.length + 1 = (pre ++ [(sigTextList ts).length]).length from by simp]
        rw [show pre ++ (sigTextList ts).length :: (sigTextList ts ++ ([0] ++ suf))
          = (pre ++ [(sigTextList ts).length]) ++ (sigTextList ts ++ ([0] ++ suf)) from by simp]
        rw [readSlice_pre _ (sigTextList ts) ([0] ++ suf)]
        rw [show (pre ++ [(sigTextList ts).length]).length + (sigTextList ts).length
          = ((pre ++ [(sigTextList ts).length]) ++ sigTextList ts).length from by simp; omega]
        rw [show ([0] ++ suf : List Nat) = 0 :: suf from rfl]
        have e5 : pre ++ [(sigTextList ts).length] ++ (sigTextList ts ++ 0 :: suf)
            = (pre ++ [(sigTextList ts).length] ++ sigTextList ts) ++ 0 :: suf := by simp
        rw [e5, readByteAt_pre (pre ++ [(sigTextList ts).length] ++ sigTextList ts) 0 suf]
        simp only [bindOk]
        rw [if_pos trivial]
        rw [parseMany_sigTextList ts hv (2 * (sigTextList ts).length + 1) (le_refl _)]
        simp [bindOk, Nat.add_assoc]
      all_goals exact Except.noConfusion h
  | .unixFd fd => by
      intro lim d t pos fds body pads fds2 h
      cases t
      case unixFd =>
        replace h : (if fds.length < 2 ^ 32 then
            (.ok (List.replicate (padLen pos 4) 0 ++ natLE 4 fds.length,
              padPositions pos (padLen pos 4), fds ++ [fd]) :
              Except Error (List Nat × List Nat × List Nat))
          else .error .OutOfBounds) = .ok (body, pads, fds2) := h
        split at h
        case isFalse => exact Except.noConfusion h
        case isTrue hn =>
        simp only [Except.ok.injEq, Prod.mk.injEq] at h
        obtain ⟨rfl, rfl, rfl⟩ := h
        refine ⟨List.prefix_append _ _, by simp [natLE_length], by simp [needB], ?_⟩
        intro fdsF pre suf fuel hf hpre hfuel
        subst hpre
        obtain ⟨Δ, rfl⟩ := hf
        obtain ⟨f, rfl⟩ : ∃ f, fuel = f + 1 := ⟨fuel - 1, by simp [needB] at hfuel; omega⟩
        rw [List.append_assoc, List.append_assoc]
        simp only [decodeB]
        rw [show alignOf .bus .unixFd = 4 from rfl]
        rw [checkZeros_pre pre (padLen pre.length 4) (natLE 4 fds.length ++ suf)]
        simp only [bindOk]
        rw [show alignUp pre.length 4 = (pre ++ List.replicate (padLen pre.length 4) 0).length from by simp [alignUp]]
        rw [← List.append_assoc pre]
        rw [readWord_pre (pre ++ List.replicate (padLen pre.length 4) 0) 4 fds.length suf
          (by norm_num at hn ⊢; omega)]
        simp only [bindOk]
        rw [show ((fds ++ [fd]) ++ Δ)[fds.length]? = some fd from by
          rw [List.getElem?_append_left (by simp), List.getElem?_append_right (le_refl _)]
          simp]
        simp [natLE_length, alignUp, Nat.add_assoc]
      all_goals exact Except.noConfusion h
  | .variant t2 v2 => by
      intro lim d t pos fds body pads fds2 h
      cases t
      case variant =>
        replace h : ((do
            checkDepth lim (enterContainerD d)
            if containsMaybe t2 then .error (.IncompatibleFormat t2 .bus)
            else if !validSig t2 then .error .IncorrectType
            else if (sigText t2).length ≤ 255 then do
              let (bb, pp, f2) ← encodeB lim (enterContainerD d) t2 v2
                (pos + padLen pos 1 + ((sigText t2).length :: (sigText t2 ++ [0])).length) fds
              .ok ((sigText t2).length :: (sigText t2 ++ [0]) ++ bb, pp, f2)
            else .error .OutOfBounds :
            Except Error (List Nat × List Nat × List Nat)) = .ok (body, pads, fds2)) := h
        simp only [doBindOk] at h
        obtain ⟨u, hdep, h⟩ := h
        split at h
        case isTrue => exact Except.noConfusion h
        case isFalse hcm =>
        split at h
        case isTrue => exact Except.noConfusion h
        case isFalse hvs =>
        split at h
        case isFalse => exact Except.noConfusion h
        case isTrue hlen =>
        simp only [doBindOk] at h
        obtain ⟨⟨bb, pp2, f2⟩, henc, h⟩ := h
        simp only [Except.ok.injEq, Prod.mk.injEq] at h
        obtain ⟨rfl, rfl, rfl⟩ := h
        obtain ⟨hpr, hb1, hneed, hdec⟩ := encodeB_rt v2 lim (enterContainerD d) t2
          (pos + padLen pos 1 + ((sigText t2).length :: (sigText t2 ++ [0])).length) fds bb pp2 f2 henc
        have htp := sigText_len_pos t2
        refine ⟨hpr, by simp, by simp [needB] <;> omega, ?_⟩
        intro fdsF pre suf fuel hf hpre hfuel
        subst hpre
        obtain ⟨f, rfl⟩ : ∃ f, fuel = f + 1 := ⟨fuel - 1, by simp [needB] at hfuel <;> omega⟩
        simp only [needB] at hfuel
        cases u
        have e0 : pre ++ ((sigText t2).length :: (sigText t2 ++ [0]) ++ bb) ++ suf
            = pre ++ ((sigText t2).length :: (sigText t2 ++ (0 :: (bb ++ suf)))) := by simp
        rw [e0]
        simp only [decodeB]
        rw [hdep]
        simp only [bindOk]
        rw [show alignOf .bus .variant = 1 from rfl, padLen_one, alignUp_one]
        rw [show checkZeros (pre ++ ((sigText t2).length :: (sigText t2 ++ (0 :: (bb ++ suf)))))
          pre.length 0 = .ok () from rfl]
        simp only [bindOk]
        rw [readByteAt_pre pre (sigText t2).length (sigText t2 ++ (0 :: (bb ++ suf)))]
        simp only [bindOk]
        rw [if_pos (by simp <;> omega)]
        have e2 : pre ++ ((sigText t2).length :: (sigText t2 ++ (0 :: (bb ++ suf))))
            = (pre ++ [(sigText t2).length]) ++ (sigText t2 ++ (0 :: (bb ++ suf))) := by simp
        rw [e2]
        rw [readSliceAt (pre ++ [(sigText t2).length]) (sigText t2) (0 :: (bb ++ suf))
          (pre.length + 1) (sigText t2).length (by simp) rfl]
        have e4 : (pre ++ [(sigText t2).length]) ++ (sigText t2 ++ (0 :: (bb ++ suf)))
            = ((pre ++ [(sigText t2).length]) ++ sigText t2) ++ (0 :: (bb ++ suf)) := by simp
        rw [e4]
        rw [readByteAt_at ((pre ++ [(sigText t2).length]) ++ sigText t2) (pre.length + 1 + (sigText t2).length)
          0 (bb ++ suf) (by simp <;> omega)]
        simp only [bindOk]
        rw [if_pos (by trivial)]
        rw [parseSingle_sigText t2 (by simpa using hvs)]
        simp only [bindOk]
        rw [if_neg hcm]
        have epos : pre.length + 1 + (sigText t2).length + 1
            = pre.length + padLen pre.length 1 + ((sigText t2).length :: (sigText t2 ++ [0])).length := by
          simp [padLen_one] <;> omega
        rw [epos]
        have hd := hdec fdsF (((pre ++ [(sigText t2).length]) ++ sigText t2) ++ [0]) suf f hf
          (by simp [padLen_one] <;> omega) (by omega)
        have e6 : ((((pre ++ [(sigText t2).length]) ++ sigText t2) ++ [0]) ++ bb) ++ suf
            = ((pre ++ [(sigText t2).length]) ++ sigText t2) ++ (0 :: (bb ++ suf)) := by simp
        rw [e6] at hd
        rw [hd]
        simp only [bindOk]
        simp [padLen_one, Nat.add_assoc, Nat.add_comm, Nat.add_left_comm]
      all_goals exact Except.noConfusion h
  | .array vs => by
      intro lim d t pos fds body pads fds2 h
      cases t
      case array te =>
        replace h : ((do
            checkDepth lim (enterArrayD d)
            let (bb, pp, f2) ← encodeBItems lim (enterArrayD d) te vs
              (pos + padLen pos 4 + 4 + padLen (pos + padLen pos 4 + 4) (alignOf .bus te)) fds
            if bb.length < 2 ^ 32 then
              .ok (List.replicate (padLen pos 4) 0 ++ (natLE 4 bb.length ++
                  (List.replicate (padLen (pos + padLen pos 4 + 4) (alignOf .bus te)) 0 ++ bb)),
                padPositions pos (padLen pos 4) ++
                  (padPositions (pos + padLen pos 4 + 4)
                    (padLen (pos + padLen pos 4 + 4) (alignOf .bus te)) ++ pp),
                f2)
            else .error .OutOfBounds :
            Except Error (List Nat × List Nat × List Nat)) = .ok (body, pads, fds2)) := h
        simp only [doBindOk] at h
        obtain ⟨u, hdep, h⟩ := h
        obtain ⟨⟨bb, pp2, f2⟩, henc, h⟩ := h
        split at h
        case isFalse => exact Except.noConfusion h
        case isTrue hn =>
        simp only [Except.ok.injEq, Prod.mk.injEq] at h
        obtain ⟨rfl, rfl, rfl⟩ := h
        obtain ⟨hpr, hneedI, hdecI⟩ := encodeBItems_rt vs lim (enterArrayD d) te
          (pos + padLen pos 4 + 4 + padLen (pos + padLen pos 4 + 4) (alignOf .bus te)) fds bb pp2 f2 henc
        refine ⟨hpr, by simp [natLE_length] <;> omega, by simp [needB, natLE_length] <;> omega, ?_⟩
        intro fdsF pre suf fuel hf hpre hfuel
        subst hpre
        obtain ⟨f, rfl⟩ : ∃ f, fuel = f + 1 := ⟨fuel - 1, by
          have := needItemsB_pos vs
          simp [needB] at hfuel <;> omega⟩
        simp only [needB] at hfuel
        cases u
        have e0 : pre ++ (List.replicate (padLen pre.length 4) 0 ++ (natLE 4 bb.length ++
              (List.replicate (padLen (pre.length + padLen pre.length 4 + 4) (alignOf .bus te)) 0 ++ bb))) ++ suf
            = pre ++ (List.replicate (padLen pre.length 4) 0 ++ (natLE 4 bb.length ++
              (List.replicate (padLen (pre.length + padLen pre.length 4 + 4) (alignOf .bus te)) 0 ++ (bb ++ suf)))) := by
          simp
        rw [e0]
        simp only [decodeB]
        rw [hdep]
        simp only [bindOk]
        rw [show alignOf .bus (.array te) = 4 from rfl]
        rw [checkZeros_pre pre (padLen pre.length 4) (natLE 4 bb.length ++
          (List.replicate (padLen (pre.length + padLen pre.length 4 + 4) (alignOf .bus te)) 0 ++ (bb ++ suf)))]
        simp only [bindOk]
        have e1 : pre ++ (List.replicate (padLen pre.length 4) 0 ++ (natLE 4 bb.length ++
              (List.replicate (padLen (pre.length + padLen pre.length 4 + 4) (alignOf .bus te)) 0 ++ (bb ++ suf))))
            = (pre ++ List.replicate (padLen pre.length 4) 0) ++ (natLE 4 bb.length ++
              (List.replicate (padLen (pre.length + padLen pre.length 4 + 4) (alignOf .bus te)) 0 ++ (bb ++ suf))) := by
          simp
        rw [e1]
        rw [readWord_at (pre ++ List.replicate (padLen pre.length 4) 0) (alignUp pre.length 4) 4 bb.length
          (List.replicate (padLen (pre.length + padLen pre.length 4 + 4) (alignOf .bus te)) 0 ++ (bb ++ suf))
          (by simp [alignUp]) (by norm_num at hn ⊢ <;> omega)]
        simp only [bindOk]
        have e2 : (pre ++ List.replicate (padLen pre.length 4) 0) ++ (natLE 4 bb.length ++
              (List.replicate (padLen (pre.length + padLen pre.length 4 + 4) (alignOf .bus te)) 0 ++ (bb ++ suf)))
            = ((pre ++ List.replicate (padLen pre.length 4) 0) ++ natLE 4 bb.length) ++
              (List.replicate (padLen (pre.length + padLen pre.length 4 + 4) (alignOf .bus te)) 0 ++ (bb ++ suf)) := by
          simp
        rw [e2]
        rw [checkZeros_at ((pre ++ List.replicate (padLen pre.length 4) 0) ++ natLE 4 bb.length)
          (alignUp pre.length 4 + 4)
          (padLen (alignUp pre.length 4 + 4) (alignOf .bus te))
          (padLen (pre.length + padLen pre.length 4 + 4) (alignOf .bus te))
          (bb ++ suf)
          (by simp [alignUp, natLE_length, Nat.add_assoc])
          (by simp [alignUp, Nat.add_assoc])]
        simp only [bindOk]
        rw [if_pos (by simp [alignUp, natLE_length, Nat.add_assoc] <;> omega)]
        have epos : alignUp (alignUp pre.length 4 + 4) (alignOf .bus te)
            = pre.length + padLen pre.length 4 + 4 +
              padLen (pre.length + padLen pre.length 4 + 4) (alignOf .bus te) := by
          simp [alignUp, Nat.add_assoc]
        rw [epos]
        have hd := hdecI fdsF (((pre ++ List.replicate (padLen pre.length 4) 0) ++ natLE 4 bb.length) ++
            List.replicate (padLen (pre.length + padLen pre.length 4 + 4) (alignOf .bus te)) 0) suf (f + 1) hf
          (by simp [natLE_length, Nat.add_assoc]) (by omega)
        have e3 : ((((pre ++ List.replicate (padLen pre.length 4) 0) ++ natLE 4 bb.length) ++
              List.replicate (padLen (pre.length + padLen pre.length 4 + 4) (alignOf .bus te)) 0) ++ bb) ++ suf
            = ((pre ++ List.replicate (padLen pre.length 4) 0) ++ natLE 4 bb.length) ++
              (List.replicate (padLen (pre.length + padLen pre.length 4 + 4) (alignOf .bus te)) 0 ++ (bb ++ suf)) := by
          simp
        rw [e3] at hd
        rw [hd]
        simp only [bindOk]
        simp [natLE_length, Nat.add_assoc]
      all_goals exact Except.noConfusion h
  | .struct vs => by
      intro lim d t pos fds body pads fds2 h
      cases t
      case struct ts =>
        replace h : ((if ts.isEmpty then .error .EmptyStructure
          else do
            checkDepth lim (enterStructD d)
            let (bb, pp, f2) ← encodeBFields lim (enterStructD d) ts vs (pos + padLen pos 8) fds
            .ok (List.replicate (padLen pos 8) 0 ++ bb,
              padPositions pos (padLen pos 8) ++ pp, f2) :
          Except Error (List Nat × List Nat × List Nat)) = .ok (body, pads, fds2)) := h
        split at h
        case isTrue => exact Except.noConfusion h
        case isFalse hne =>
        simp only [doBindOk] at h
        obtain ⟨u, hdep, h⟩ := h
        obtain ⟨⟨bb, pp2, f2⟩, henc, h⟩ := h
        simp only [Except.ok.injEq, Prod.mk.injEq] at h
        obtain ⟨rfl, rfl, rfl⟩ := h
        obtain ⟨hpr, hleq, hlle, hneed, hdec⟩ := encodeBFields_rt vs lim (enterStructD d) ts
          (pos + padLen pos 8) fds bb pp2 f2 henc
        have hvs0 : 1 ≤ vs.length := by
          cases ts with
          | nil => simp at hne
          | cons a b => rw [hleq]; simp
        refine ⟨hpr, by simp <;> omega, by simp [needB] <;> omega, ?_⟩
        intro fdsF pre suf fuel hf hpre hfuel
        subst hpre
        obtain ⟨f, rfl⟩ : ∃ f, fuel = f + 1 := ⟨fuel - 1, by
          have := needFieldsB_pos vs
          simp [needB] at hfuel <;> omega⟩
        simp only [needB] at hfuel
        cases u
        rw [List.append_assoc, List.append_assoc]
        simp only [decodeB]
        rw [if_neg hne, hdep]
        simp only [bindOk]
        rw [show alignOf .bus (.struct ts) = 8 from rfl]
        rw [checkZeros_pre pre (padLen pre.length 8) (bb ++ suf)]
        simp only [bindOk]
        have epos : alignUp pre.length 8 = pre.length + padLen pre.length 8 := by
          simp [alignUp]
        rw [epos]
        have hd := hdec fdsF (pre ++ List.replicate (padLen pre.length 8) 0) suf (f + 1) hf
          (by simp) hfuel
        have e1 : ((pre ++ List.replicate (padLen pre.length 8) 0) ++ bb) ++ suf
            = pre ++ (List.replicate (padLen pre.length 8) 0 ++ (bb ++ suf)) := by simp
        rw [e1] at hd
        rw [hd]
        simp only [bindOk]
        simp [Nat.add_assoc]
      all_goals exact Except.noConfusion h
  | .dictEntry vk vv => by
      intro lim d t pos fds body pads fds2 h
      cases t
      case dictEntry tk tv =>
        replace h : ((if isBasic tk then do
            checkDepth lim (enterStructD d)
            let (kb, kp, f1) ← encodeB lim (enterStructD d) tk vk (pos + padLen pos 8) fds
            let (vb, vp, f2) ← encodeB lim (enterStructD d) tv vv (pos + padLen pos 8 + kb.length) f1
            .ok (List.replicate (padLen pos 8) 0 ++ (kb ++ vb),
              padPositions pos (padLen pos 8) ++ (kp ++ vp), f2)
          else .error .IncorrectType :
          Except Error (List Nat × List Nat × List Nat)) = .ok (body, pads, fds2)) := h
        split at h
        case isFalse => exact Except.noConfusion h
        case isTrue hbk =>
        simp only [doBindOk] at h
        obtain ⟨u, hdep, h⟩ := h
        obtain ⟨⟨kb, kp, f1⟩, hk, h⟩ := h
        obtain ⟨⟨vb, vp, f2⟩, hv2, h⟩ := h
        simp only [Except.ok.injEq, Prod.mk.injEq] at h
        obtain ⟨rfl, rfl, rfl⟩ := h
        obtain ⟨hprk, hbk1, hneedk, hdeck⟩ := encodeB_rt vk lim (enterStructD d) tk
          (pos + padLen pos 8) fds kb kp f1 hk
        obtain ⟨hprv, hbv1, hneedv, hdecv⟩ := encodeB_rt vv lim (enterStructD d) tv
          (pos + padLen pos 8 + kb.length) f1 vb vp f2 hv2
        refine ⟨hprk.trans hprv, by simp <;> omega, by simp [needB] <;> omega, ?_⟩
        intro fdsF pre suf fuel hf hpre hfuel
        subst hpre
        obtain ⟨f, rfl⟩ : ∃ f, fuel = f + 1 := ⟨fuel - 1, by
          have := needB_pos vk
          have := needB_pos vv
          simp [needB] at hfuel
          omega⟩
        simp only [needB] at hfuel
        have hfk : needB vk ≤ f + 1 := le_trans (le_max_left _ _) hfuel
        have hfv2 : needB vv ≤ f + 1 := le_trans (le_max_right _ _) hfuel
        cases u
        have e0 : pre ++ (List.replicate (padLen pre.length 8) 0 ++ (kb ++ vb)) ++ suf
            = pre ++ (List.replicate (padLen pre.length 8) 0 ++ (kb ++ (vb ++ suf))) := by simp
        rw [e0]
        simp only [decodeB]
        rw [if_pos hbk, hdep]
        simp only [bindOk]
        rw [show alignOf .bus (.dictEntry tk tv) = 8 from rfl]
        rw [checkZeros_pre pre (padLen pre.length 8) (kb ++ (vb ++ suf))]
        simp only [bindOk]
        have epos : alignUp pre.length 8 = pre.length + padLen pre.length 8 := by
          simp [alignUp]
        rw [epos]
        have hdk := hdeck fdsF (pre ++ List.replicate (padLen pre.length 8) 0) (vb ++ suf) (f + 1)
          (hprv.trans hf) (by simp) hfk
        have e1 : ((pre ++ List.replicate (padLen pre.length 8) 0) ++ kb) ++ (vb ++ suf)
            = pre ++ (List.replicate (padLen pre.length 8) 0 ++ (kb ++ (vb ++ suf))) := by simp
        rw [e1] at hdk
        rw [hdk]
        simp only [bindOk]
        have hdv := hdecv fdsF ((pre ++ List.replicate (padLen pre.length 8) 0) ++ kb) suf (f + 1)
          hf (by simp [Nat.add_assoc]) hfv2
        have e2 : (((pre ++ List.replicate (padLen pre.length 8) 0) ++ kb) ++ vb) ++ suf
            = pre ++ (List.replicate (padLen pre.length 8) 0 ++ (kb ++ (vb ++ suf))) := by simp
        rw [e2] at hdv
        rw [hdv]
        simp only [bindOk]
        simp [Nat.add_assoc]
      all_goals exact Except.noConfusion h
  | .maybe ov => by
      intro lim d t pos fds body pads fds2 h
      cases t <;> exact Except.noConfusion h

theorem encodeBFields_rt : ∀ (vs : List Value) (lim : Limits) (d : Depths)
    (ts : List Signature) (pos : Nat) (fds body pads fds2 : List Nat),
    encodeBFields lim d ts vs pos fds = .ok (body, pads, fds2) →
    (fds <+: fds2) ∧ vs.length = ts.length ∧ vs.length ≤ body.length ∧
    needFieldsB vs ≤ body.length + 1 ∧
    (∀ fdsF pre suf fuel, fds2 <+: fdsF → pre.length = pos → needFieldsB vs ≤ fuel →
      decodeBFields lim d fuel ts (pre ++ body ++ suf) pos fdsF = .ok (vs, pos + body.length))
  | [] => by
      intro lim d ts pos fds body pads fds2 h
      cases ts
      case nil =>
        replace h : (.ok ([], [], fds) : Except Error (List Nat × List Nat × List Nat))
          = .ok (body, pads, fds2) := h
        simp only [Except.ok.injEq, Prod.mk.injEq] at h
        obtain ⟨rfl, rfl, rfl⟩ := h
        refine ⟨List.prefix_refl _, rfl, le_refl _, by simp [needFieldsB], ?_⟩
        intro fdsF pre suf fuel hf hpre hfuel
        subst hpre
        simp [decodeBFields]
      case cons t ts2 => exact Except.noConfusion h
  | v :: vs => by
      intro lim d ts pos fds body pads fds2 h
      cases ts
      case nil => exact Except.noConfusion h
      case cons t ts2 =>
        replace h : ((do
            let (b1, p1, f1) ← encodeB lim d t v pos fds
            let (b2, p2, f2) ← encodeBFields lim d ts2 vs (pos + b1.length) f1
            .ok (b1 ++ b2, p1 ++ p2, f2) :
            Except Error (List Nat × List Nat × List Nat)) = .ok (body, pads, fds2)) := h
        simp only [doBindOk] at h
        obtain ⟨⟨b1, p1, f1⟩, henc, h⟩ := h
        obtain ⟨⟨b2, p2, f2⟩, hrest, h⟩ := h
        simp only [Except.ok.injEq, Prod.mk.injEq] at h
        obtain ⟨rfl, rfl, rfl⟩ := h
        obtain ⟨hpr1, hb1, hneed1, hdec1⟩ := encodeB_rt v lim d t pos fds b1 p1 f1 henc
        obtain ⟨hpr2, hleq, hlle, hneed2, hdec2⟩ := encodeBFields_rt vs lim d ts2
          (pos + b1.length) f1 b2 p2 f2 hrest
        refine ⟨hpr1.trans hpr2, by simp [hleq], by simp <;> omega,
          by simp [needFieldsB] <;> omega, ?_⟩
        intro fdsF pre suf fuel hf hpre hfuel
        subst hpre
        simp only [needFieldsB] at hfuel
        have hfv : needB v ≤ fuel := le_trans (le_max_left _ _) hfuel
        have hff : needFieldsB vs ≤ fuel := le_trans (le_max_right _ _) hfuel
        have hd1 := hdec1 fdsF pre (b2 ++ suf) fuel (hpr2.trans hf) rfl hfv
        have hd2 := hdec2 fdsF (pre ++ b1) suf fuel hf (by simp) hff
        have e0 : (pre ++ (b1 ++ b2)) ++ suf = (pre ++ b1) ++ (b2 ++ suf) := by simp
        rw [e0]
        rw [decodeBFields]
        rw [hd1]
        simp only [bindOk]
        have e1 : ((pre ++ b1) ++ b2) ++ suf = (pre ++ b1) ++ (b2 ++ suf) := by simp
        rw [e1] at hd2
        rw [hd2]
        simp only [bindOk]
        simp [Nat.add_assoc]

theorem encodeBItems_rt : ∀ (vs : List Value) (lim : Limits) (d : Depths)
    (te : Signature) (pos : Nat) (fds body pads fds2 : List Nat),
    encodeBItems lim d te vs pos fds = .ok (body, pads, fds2) →
    (fds <+: fds2) ∧ needItemsB vs ≤ body.length + 1 ∧
    (∀ fdsF pre suf fuel, fds2 <+: fdsF → pre.length = pos → needItemsB vs ≤ fuel →
      decodeBItems lim d fuel te (pre ++ body ++ suf) (pos + body.length) pos fdsF =
        .ok (vs, pos + body.length))
  | [] => by
      intro lim d te pos fds body pads fds2 h
      replace h : (.ok ([], [], fds) : Except Error (List Nat × List Nat × List Nat))
        = .ok (body, pads, fds2) := h
      simp only [Except.ok.injEq, Prod.mk.injEq] at h
      obtain ⟨rfl, rfl, rfl⟩ := h
      refine ⟨List.prefix_refl _, by simp [needItemsB], ?_⟩
      intro fdsF pre suf fuel hf hpre hfuel
      subst hpre
      obtain ⟨f, rfl⟩ : ∃ f, fuel = f + 1 := ⟨fuel - 1, by simp [needItemsB] at hfuel <;> omega⟩
      simp [decodeBItems]
  | v :: vs => by
      intro lim d te pos fds body pads fds2 h
      replace h : ((do
          let (b1, p1, f1) ← encodeB lim d te v pos fds
          let (b2, p2, f2) ← encodeBItems lim d te vs (pos + b1.length) f1
          .ok (b1 ++ b2, p1 ++ p2, f2) :
          Except Error (List Nat × List Nat × List Nat)) = .ok (body, pads, fds2)) := h
      simp only [doBindOk] at h
      obtain ⟨⟨b1, p1, f1⟩, henc, h⟩ := h
      obtain ⟨⟨b2, p2, f2⟩, hrest, h⟩ := h
      simp only [Except.ok.injEq, Prod.mk.injEq] at h
      obtain ⟨rfl, rfl, rfl⟩ := h
      obtain ⟨hpr1, hb1, hneed1, hdec1⟩ := encodeB_rt v lim d te pos fds b1 p1 f1 henc
      obtain ⟨hpr2, hneed2, hdec2⟩ := encodeBItems_rt vs lim d te (pos + b1.length) f1 b2 p2 f2 hrest
      refine ⟨hpr1.trans hpr2, by simp [needItemsB] <;> omega, ?_⟩
      intro fdsF pre suf fuel hf hpre hfuel
      subst hpre
      simp only [needItemsB] at hfuel
      have hfv : needB v ≤ fuel := le_trans (le_max_left _ _) hfuel
      have hfi : needItemsB vs + 1 ≤ fuel := le_trans (le_max_right _ _) hfuel
      obtain ⟨f, rfl⟩ : ∃ f, fuel = f + 1 := ⟨fuel - 1, by omega⟩
      rw [decodeBItems]
      rw [if_neg (by simp only [List.length_append]; omega)]
      have hd1 := hdec1 fdsF pre (b2 ++ suf) (f + 1) (hpr2.trans hf) rfl hfv
      have hd2 := hdec2 fdsF (pre ++ b1) suf f hf (by simp) (by omega)
      have e0 : (pre ++ (b1 ++ b2)) ++ suf = (pre ++ b1) ++ (b2 ++ suf) := by simp
      rw [e0]
      rw [hd1]
      simp only [bindOk]
      have e1 : ((pre ++ b1) ++ b2) ++ suf = (pre ++ b1) ++ (b2 ++ suf) := by simp
      rw [e1] at hd2
      have e3 : pre.length + (b1 ++ b2).length = pre.length + b1.length + b2.length := by
        simp [Nat.add_assoc]
      rw [e3, hd2]
      simp only [bindOk]

end


end ZV

namespace Fdo

/-- Modelled from the spec and from its uses in `zbus/src/fdo/peer.rs`: the
variants of the fdo error type that the peer interface produces. -/
inductive Error where
  | IOError (s : String)
  | NotSupported (s : String)
deriving DecidableEq

/-- The build-time platform selecting which `get_machine_id` implementation
is compiled (`#[cfg(...)]` in `zbus/src/fdo/peer.rs`). -/
inductive Platform where
  | linux
  | macos
  | otherUnix
  | windows
deriving DecidableEq

/-- The platform facilities `get_machine_id` consults, passed explicitly:
results of `read_to_string` on the two machine-id files, the `gethostuuid`
outcome (the 16 uuid bytes on success), the display of the last OS error,
and the win32 machine-id lookup. -/
structure PlatformEnv where
  dbusMachineIdFile : Except String String
  etcMachineIdFile : Except String String
  gethostuuid : Option (List Nat)
  lastOsError : String
  win32MachineId : Except String String

/-- Lowercase hex digit for a value below 16. -/
def hexDigit (n : Nat) : Char :=
  if n < 10 then Char.ofNat (48 + n) else Char.ofNat (87 + n)

/-- `format!("{b:02x}")`: a byte as two lowercase hex digits. -/
def hexByte (b : Nat) : String :=
  String.mk [hexDigit (b / 16 % 16), hexDigit (b % 16)]

/-- Embedding of `get_machine_id` (`zbus/src/fdo/peer.rs:36-90`): the four
`#[cfg]`-selected bodies, dispatched on the build platform.  Linux reads
`/var/lib/dbus/machine-id`, falls back to `/etc/machine-id`, and trims
trailing whitespace; macOS hex-prints the `gethostuuid` bytes; other Unix
platforms return a `NotSupported` error; Windows adapts the win32 lookup. -/
def getMachineId (p : Platform) (env : PlatformEnv) : Except Error String :=
  match p with
  | .linux =>
      match env.dbusMachineIdFile with
      | .ok id => .ok id.trimRight
      | .error e =>
          match env.etcMachineIdFile with
          | .ok id => .ok id.trimRight
          | .error _ =>
              .error (.IOError
                s!"Failed to read from /var/lib/dbus/machine-id or /etc/machine-id: {e}")
  | .macos =>
      match env.gethostuuid with
      | some uuid => .ok (String.join (uuid.map hexByte))
      | none => .error (.IOError s!"gethostuuid failed: {env.lastOsError}")
  | .otherUnix =>
      .error (.NotSupported "get_machine_id is not yet implemented on this platform")
  | .windows =>
      match env.win32MachineId with
      | .ok id => .ok id
      | .error e => .error (.IOError e)

end Fdo

/-! ## Reflexivity of signature equality -/

mutual

theorem sigBeq_refl : ∀ s : ZV.Signature, ZV.sigBeq s s = true
  | .byte | .boolean | .int16 | .uint16 | .int32 | .uint32 | .int64 | .uint64
  | .double | .string | .objectPath | .signature | .unixFd | .variant => rfl
  | .array e => sigBeq_refl e
  | .struct fs => sigBeqList_refl fs
  | .dictEntry k v => by
      show (ZV.sigBeq k k && ZV.sigBeq v v) = true
      rw [sigBeq_refl k, sigBeq_refl v]; rfl
  | .maybe e => sigBeq_refl e

theorem sigBeqList_refl : ∀ l : List ZV.Signature, ZV.sigBeqList l l = true
  | [] => rfl
  | a :: as => by
      show (ZV.sigBeq a a && ZV.sigBeqList as as) = true
      rw [sigBeq_refl a, sigBeqList_refl as]; rfl

end

/-! ## Claims about the error taxonomy -/

/-- C2: the error type is a closed, structured taxonomy: every error value
has a kind, the kinds are exactly fourteen, and each of the fourteen listed
kinds is realized by some error value. -/
theorem claim_C2_closed_taxonomy :
    Fintype.card ZV.ErrorKind = 14 ∧ ∀ k : ZV.ErrorKind, ∃ e : ZV.Error, ZV.kindOf e = k := by
  refine ⟨by decide, fun k => ?_⟩
  cases k
  case messageWrapping => exact ⟨.Message "", rfl⟩
  case ioFailure => exact ⟨.InputOutput ⟨0, ""⟩, rfl⟩
  case typeMismatch => exact ⟨.IncorrectType, rfl⟩
  case utf8Failure => exact ⟨.Utf8 ⟨0, none⟩, rfl⟩
  case nonZeroPadding => exact ⟨.PaddingNot0 1, rfl⟩
  case unknownFdIndex => exact ⟨.UnknownFd, rfl⟩
  case missingFramingOffset => exact ⟨.MissingFramingOffset, rfl⟩
  case incompatibleFormat => exact ⟨.IncompatibleFormat (.maybe .string) .bus, rfl⟩
  case signatureMismatch => exact ⟨.SignatureMismatch .byte "", rfl⟩
  case outOfBounds => exact ⟨.OutOfBounds, rfl⟩
  case depthExceeded => exact ⟨.MaxDepthExceeded .Array, rfl⟩
  case signatureParseFailure => exact ⟨.SignatureParse .unexpectedEnd, rfl⟩
  case emptyStructure => exact ⟨.EmptyStructure, rfl⟩
  case invalidObjectPath => exact ⟨.InvalidObjectPath, rfl⟩

/-- C3: a depth-exceeded error always carries a tag, the tag is one of
exactly three kinds (structure, array, container), and the tagged error is
of the depth-exceeded kind. -/
theorem claim_C3_depth_tag (m : ZV.MaxDepthExceeded) :
    ZV.kindOf (ZV.Error.MaxDepthExceeded m) = .depthExceeded ∧
      (m = .Structure ∨ m = .Array ∨ m = .Container) := by
  refine ⟨rfl, ?_⟩
  cases m
  · exact .inl rfl
  · exact .inr (.inl rfl)
  · exact .inr (.inr rfl)

/-- C5: every signature-vs-expected mismatch error carries both the
offending (provided) signature and the expected shape description, and both
are retrievable from it. -/
theorem claim_C5_mismatch_payload (e : ZV.Error)
    (h : ZV.kindOf e = .signatureMismatch) :
    ∃ provided expected, e = .SignatureMismatch provided expected ∧
      ZV.mismatchProvided e = some provided ∧ ZV.mismatchExpected e = some expected := by
  cases e <;> simp [ZV.kindOf] at h
  exact ⟨_, _, rfl, rfl, rfl⟩

/-- Witness for C5 at a concrete mismatch error. -/
theorem claim_C5_mismatch_payload_witness :
    ∃ provided expected,
      ZV.Error.SignatureMismatch .uint32 "a basic type" = .SignatureMismatch provided expected ∧
      ZV.mismatchProvided (.SignatureMismatch .uint32 "a basic type") = some provided ∧
      ZV.mismatchExpected (.SignatureMismatch .uint32 "a basic type") = some expected :=
  claim_C5_mismatch_payload (.SignatureMismatch .uint32 "a basic type") rfl

/-- C7: converting a platform io error into the library error yields the
`InputOutput` variant holding exactly that error, and the wrapped error is
retrievable as the error's source. -/
theorem claim_C7_io_wrapping (ioe : ZV.IoError) :
    ZV.fromIoError ioe = .InputOutput ioe ∧
      ZV.sourceOf (ZV.fromIoError ioe) = some (.io ioe) :=
  ⟨rfl, rfl⟩

/-- C8: on Unix platforms other than Linux and macOS, `get_machine_id`
returns a `NotSupported` error, whatever the platform facilities hold. -/
theorem claim_C8_machine_id_not_supported (env : Fdo.PlatformEnv) :
    Fdo.getMachineId .otherUnix env =
      .error (.NotSupported "get_machine_id is not yet implemented on this platform") :=
  rfl

/-- C9: the error type's equality is reflexive on every variant except
`InputOutput`, and never holds between two `InputOutput` errors, not even
between an `InputOutput` error and itself. -/
theorem claim_C9_eq_reflexive_except_io (e : ZV.Error) :
    ZV.beqError e e = !ZV.isInputOutput e := by
  cases e <;>
    simp [ZV.beqError, ZV.isInputOutput, BEq.beq, sigBeq_refl]

/-- C10: cloning an error that is not of the `InputOutput` variant yields an
error equal to the original. -/
theorem claim_C10_clone_eq (e : ZV.Error) (h : ZV.isInputOutput e = false) :
    ZV.beqError (ZV.cloneError e) e = true := by
  cases e <;> simp_all [ZV.isInputOutput, ZV.cloneError, ZV.beqError, BEq.beq, sigBeq_refl]

/-- Witness for C10 at a concrete non-io error. -/
theorem claim_C10_clone_eq_witness :
    ZV.isInputOutput (.PaddingNot0 7) = false ∧
      ZV.beqError (ZV.cloneError (.PaddingNot0 7)) (.PaddingNot0 7) = true :=
  ⟨rfl, claim_C10_clone_eq (.PaddingNot0 7) rfl⟩
